import Mathlib

/-!
Verification development for the DegreeWorks audit acquisition and
normalization subsystem of `anteater-api`.

The definitions below are a shallow embedding of the TypeScript sources:

* `apps/data-pipeline/degreeworks-scraper/src/components/Scraper.ts`
* `apps/data-pipeline/degreeworks-scraper/src/components/DegreeworksClient.ts`
* `apps/data-pipeline/degreeworks-scraper/src/schema.ts` (the report schema)

Network and filesystem effects are modelled with explicit oracles
(functions supplied as parameters) and instrumentation fields (recorded
query lists, recorded file-write snapshots).  JavaScript `Map` objects are
modelled as insertion-ordered association lists, which matches `Map`
iteration semantics.  JavaScript object identity (several references to
one mutable program object) is modelled with an indexed store of program
records: references are indices into the store, and `push`-style mutation
rewrites the store at one index.

The requirement-tree parser (`AuditParser`) is referenced by the scraper
but its source is not part of this tree; it is modelled from the spec
where needed and clearly marked as such.
-/

namespace DW

/-! ## Requirement trees (spec-modelled parser data model)

`RequirementNode` is the canonical requirement-tree variant described in
the spec: internal boolean nodes `allOf`/`anyOf`/`noneOf` and the two
concrete leaves `course`/`exam`. -/

inductive RequirementNode where
  | allOf (children : List RequirementNode)
  | anyOf (children : List RequirementNode)
  | noneOf (children : List RequirementNode)
  | course (courseId : String) (minGrade : Option String) (isCoreq : Bool)
  | exam (examName : String) (minGrade : Option String)
deriving Repr

/-- The kind of a boolean grouping directive appearing in a rule array. -/
inductive GroupKind where
  | allOf
  | anyOf
  | noneOf
deriving Repr, DecidableEq

/-- Modelled from the spec: `RuleArray` is "an ordered sequence of
heterogeneous rule entries (course requirement, exam-credit requirement,
nested sub-block, boolean grouping directive)", where unrecognized
entries must be skipped.  A nested sub-block carries its own title and
rule array (the fields of a `Block` that the parser inspects). -/
inductive Rule where
  | course (courseId : String) (minGrade : Option String) (isCoreq : Bool)
  | exam (examName : String) (minGrade : Option String)
  | group (kind : GroupKind) (rules : List Rule)
  | subBlock (title : String) (rules : List Rule)
  | unknown
deriving Repr

/-- One named section of an audit response.  Opaque to the scraper except
for the fields `requirementType`, `requirementValue`, `title` and the
nested rule array. -/
structure Block where
  requirementType : String := ""
  requirementValue : String := ""
  title : String := ""
  ruleArray : List Rule := []
deriving Repr, Inhabited

/-- Build the internal node of the given kind. -/
def GroupKind.node : GroupKind → List RequirementNode → RequirementNode
  | .allOf, cs => .allOf cs
  | .anyOf, cs => .anyOf cs
  | .noneOf, cs => .noneOf cs

mutual

/-- Modelled from the spec: the translation of a single rule entry by
`AuditParser.ruleArrayToRequirements` (source not under this tree).
Leaf rules become `course`/`exam` nodes; a grouping directive becomes an
internal node around its recursively parsed children, except that an
empty group is dropped rather than emitted; a nested sub-block
contributes its recursively parsed rule array; unrecognized entries are
dropped. -/
def parseRule : Rule → List RequirementNode
  | .course c g q => [.course c g q]
  | .exam e g => [.exam e g]
  | .group k rs =>
      let cs := parseRules rs
      if cs.isEmpty then [] else [k.node cs]
  | .subBlock _ rs => parseRules rs
  | .unknown => []

/-- Modelled from the spec: `AuditParser.ruleArrayToRequirements`, the
ordered concatenation of the translations of the entries of a rule
array. -/
def parseRules : List Rule → List RequirementNode
  | [] => []
  | r :: rs => parseRule r ++ parseRules rs

end

mutual

/-- A requirement node is well formed when every internal node in it has
at least one child.  (In this variant, every childless node is a
`course` or `exam` leaf by construction, so well-formedness is exactly
the spec invariant.) -/
def goodNode : RequirementNode → Bool
  | .allOf cs => !cs.isEmpty && goodNodes cs
  | .anyOf cs => !cs.isEmpty && goodNodes cs
  | .noneOf cs => !cs.isEmpty && goodNodes cs
  | .course _ _ _ => true
  | .exam _ _ => true

/-- Every node of the list is well formed. -/
def goodNodes : List RequirementNode → Bool
  | [] => true
  | n :: ns => goodNode n && goodNodes ns

end

/-- A node is a leaf when it has no children. -/
def isLeaf : RequirementNode → Bool
  | .allOf cs => cs.isEmpty
  | .anyOf cs => cs.isEmpty
  | .noneOf cs => cs.isEmpty
  | .course _ _ _ => false
  | .exam _ _ => false

/-- A node is a concrete course or exam reference. -/
def isConcrete : RequirementNode → Bool
  | .course _ _ _ => true
  | .exam _ _ => true
  | _ => false

/-- The children of a node (empty for leaves). -/
def childrenOf : RequirementNode → List RequirementNode
  | .allOf cs => cs
  | .anyOf cs => cs
  | .noneOf cs => cs
  | .course _ _ _ => []
  | .exam _ _ => []

mutual

/-- The node together with all of its descendants. -/
def descendants : RequirementNode → List RequirementNode
  | .allOf cs => .allOf cs :: descendantsList cs
  | .anyOf cs => .anyOf cs :: descendantsList cs
  | .noneOf cs => .noneOf cs :: descendantsList cs
  | .course c g q => [.course c g q]
  | .exam e g => [.exam e g]

/-- All descendants of all nodes of the list, the nodes themselves
included. -/
def descendantsList : List RequirementNode → List RequirementNode
  | [] => []
  | n :: ns => descendants n ++ descendantsList ns

end

/-- The shape invariant of the spec, at one node: a leaf is a concrete
course or exam reference, and an internal (non-concrete) node has at
least one child. -/
def goodShape (d : RequirementNode) : Bool :=
  (!(isLeaf d) || isConcrete d) && (isConcrete d || decide (1 ≤ (childrenOf d).length))

/-! ## Association lists (JavaScript `Map` model)

`Map` iterates in key-insertion order; `set` on an existing key replaces
the value in place, `set` on a fresh key appends; `delete` removes. -/

/-- `Map.get`: the value at the first (and, for lists built with `alSet`,
only) occurrence of the key. -/
def alGet {α : Type} (l : List (String × α)) (k : String) : Option α :=
  (l.find? (fun e => e.1 == k)).map (fun e => e.2)

/-- `Map.has`. -/
def alHas {α : Type} (l : List (String × α)) (k : String) : Bool :=
  (alGet l k).isSome

/-- `Map.set`: replace in place when the key is present, append when it
is fresh. -/
def alSet {α : Type} (l : List (String × α)) (k : String) (v : α) : List (String × α) :=
  if alHas l k then l.map (fun e => if e.1 == k then (k, v) else e) else l ++ [(k, v)]

/-- `Map.delete`. -/
def alErase {α : Type} (l : List (String × α)) (k : String) : List (String × α) :=
  l.filter (fun e => !(e.1 == k))

/-- `new Map(entries)`: later entries with the same key overwrite
earlier ones. -/
def alOfEntries {α : Type} (l : List (String × α)) : List (String × α) :=
  l.foldl (fun acc e => alSet acc e.1 e.2) []

/-- The keys, in iteration order. -/
def alKeys {α : Type} (l : List (String × α)) : List String :=
  l.map (fun e => e.1)

/-! ## Programs -/

/-- `DegreeWorksProgram` (see the spec data model): a parsed program
record.  `specs` is the list of specialization codes resolved to this
program; the specialization stage mutates it in place through shared
references. -/
structure DWProgram where
  id : String := ""
  name : String := ""
  degreeType : Option String := none
  code : String := ""
  school : String := ""
  requirements : List RequirementNode := []
  specs : List String := []
deriving Repr, Inhabited

/-- Modelled from the spec: `AuditParser.parseBlock(identity, block)`
(source not under this tree) produces a `Program` record carrying the
given identity string (of the form `school-KIND-code-degree`), the block
title as display name, the parsed rule array as requirements, and an
empty specialization list. -/
def splitOnDash : List Char → List (List Char)
  | [] => [[]]
  | c :: rest =>
    if c = '-' then [] :: splitOnDash rest
    else
      match splitOnDash rest with
      | h :: t => (c :: h) :: t
      | [] => [[c]]

def parseBlock (progId : String) (b : Block) : DWProgram :=
  let parts := (splitOnDash progId.toList).map (fun cs => String.mk cs)
  { id := progId
    name := b.title
    school := parts.getD 0 ""
    code := parts.getD 2 ""
    degreeType := if parts.length ≥ 4 then some (parts.getD 3 "") else none
    requirements := parseRules b.ruleArray
    specs := [] }

/-! ## DegreeworksClient bootstrap (`DegreeworksClient.new`) -/

/-- The state of a constructed client, with an instrumentation field
recording which catalog years were probed during bootstrap. -/
structure DegreeworksClientModel where
  studentId : String := ""
  catalogYear : String := ""
  probedYears : List String := []
deriving Repr, DecidableEq, Inhabited

/-- Translated from `DegreeworksClient.new`: set the catalog year to the
forward-looking academic year and probe it once with
`getMajorAudit("BS", "U", "201")`; if that probe yields no data (the
response is the error envelope), fall back to the academic year starting
the previous calendar year.  `probe` maps a catalog year to whether the
probe audit under that year yields data.  The result is an `Except` so
that a fatal construction failure would be expressible as `.error`. -/
def degreeworksClientNew (probe : String → Bool) (currentYear : Nat)
    (studentId : String) : Except String DegreeworksClientModel :=
  let fwd := toString currentYear ++ toString (currentYear + 1)
  let prior := toString (currentYear - 1) ++ toString currentYear
  if probe fwd then .ok { studentId, catalogYear := fwd, probedYears := [fwd] }
  else .ok { studentId, catalogYear := prior, probedYears := [fwd] }

/-! ## Discovery (`Scraper.discoverValidDegrees`) -/

/-- `reportSchema` (from the scraper schema), flattened: one catalog
report entry with its school code, major code, optional major end term,
and nullable degree code. -/
structure Report where
  schoolCode : String := ""
  majorCode : String := ""
  endTermYyyyst : Option String := none
  degreeCode : Option String := none
deriving Repr, DecidableEq, Inhabited

/-- `rewardTypeSchema`: one award-type vocabulary entry. -/
structure RewardType where
  degreeCode : String := ""
  degreeShort : String := ""
deriving Repr, DecidableEq, Inhabited

/-- A (school code, major code, degree code) audit query target. -/
structure ProgramTriplet where
  schoolCode : String := ""
  majorCode : String := ""
  degreeCode : String := ""
deriving Repr, DecidableEq, Inhabited

/-- JavaScript resolves a two-digit year with a 1900/2000 pivot; the
source comment documents this for the date parse in the discovery
filter (it notes the parse breaks for years from midcentury on because
the two-digit year is read as 19xx). -/
def twoDigitPivotYear (yy : Nat) : Nat :=
  if yy < 50 then 2000 + yy else 1900 + yy

/-- The numeric value of an all-digit character sequence (`none`
otherwise). -/
def digitsToNat? (cs : List Char) : Option Nat :=
  if !cs.isEmpty && cs.all Char.isDigit then
    some (cs.foldl (fun n c => n * 10 + (c.toNat - 48)) 0)
  else none

/-- Model of
`new Date(endTerm.slice(1) ++ "-01-01").getUTCFullYear()` on the
term strings of `endTermYyyyst` (one letter then a two-digit year):
`none` stands for an invalid date (whose year is `NaN`, so that every
comparison with it is false). -/
def endTermParsedYear (endTerm : String) : Option Nat :=
  (digitsToNat? (endTerm.toList.drop 1)).map twoDigitPivotYear

/-- Translated from the filter in `Scraper.discoverValidDegrees`: keep a
report entry when its degree code is non-null, its major either has no
end term (null or empty string, both falsy) or an end term parsing to
year 2006 or later, and its major code is in the audit system's major
vocabulary. -/
def discoveryFilter (majorPrograms : List String) (ent : Report) : Bool :=
  ent.degreeCode.isSome &&
  (match ent.endTermYyyyst with
   | none => true
   | some t =>
     t == "" ||
     (match endTermParsedYear t with
      | some y => decide (2006 ≤ y)
      | none => false)) &&
  majorPrograms.contains ent.majorCode

/-- Translated from `Scraper.transformDegreeShort`: the one documented
label alias between the catalogue and DegreeWorks degree names. -/
def transformDegreeShort (input : String) : String :=
  if input == "M.MGMT." then "M.I.M." else input

/-- `String.prototype.toLowerCase`, character by character. -/
def lowerStr (s : String) : String :=
  String.mk (s.toList.map Char.toLower)

/-- Translated from `Scraper.findDwNameFor`: the DegreeWorks degree keys
whose display name matches the (alias-corrected) catalogue degree short
name case-insensitively. -/
def findDwNameFor (degrees : List (String × String)) (degreeShort : String) : List String :=
  (degrees.filter
    (fun e => lowerStr e.2 == lowerStr (transformDegreeShort degreeShort))).map (fun e => e.1)

/-- Translated from the `flatMap` in `Scraper.discoverValidDegrees`: for
each filtered report entry, emit one triplet per matched DegreeWorks
degree key.  Looking up a degree code missing from the award-types map
is a JavaScript `TypeError` (`toLowerCase` of `undefined`), modelled as
`.error`. -/
def matchTriplets (degrees : List (String × String))
    (awardTypesMap : List (String × RewardType)) :
    List Report → Except String (List ProgramTriplet)
  | [] => .ok []
  | ent :: rest =>
    match alGet awardTypesMap (ent.degreeCode.getD "") with
    | none => .error "TypeError: cannot read degreeShort of undefined"
    | some rt =>
      let withMatchedDegree := (findDwNameFor degrees rt.degreeShort).map
        (fun dwName => ProgramTriplet.mk ent.schoolCode ent.majorCode dwName)
      (matchTriplets degrees awardTypesMap rest).map
        (fun ts => withMatchedDegree ++ ts)

/-- Translated from `Scraper.discoverValidDegrees`: build the award-types
map, filter the catalog report entries, and match each survivor against
the DegreeWorks degree vocabulary. -/
def discoverValidDegrees (awardTypes : List RewardType) (reports : List Report)
    (degrees : List (String × String)) (majorPrograms : List String) :
    Except String (List ProgramTriplet) :=
  let awardTypesMap := alOfEntries (awardTypes.map (fun e => (e.degreeCode, e)))
  matchTriplets degrees awardTypesMap (reports.filter (discoveryFilter majorPrograms))

/-! ## Major scraping (`Scraper.scrapePrograms`) -/

/-- The result of `DegreeworksClient.getMajorAudit`: the college block
and major block selected from a non-error audit response (either may be
absent). -/
structure MajorAuditResult where
  college : Option Block := none
  major : Option Block := none
deriving Repr, Inhabited

/-- A `MajorProgram` value: the optional parsed college block paired
with the parsed major program. -/
def MajorProgram : Type := Option DWProgram × DWProgram

/-- The parsed value `scrapePrograms` stores for a triplet whose audit
carries the given blocks. -/
def parsedTripletValue (t : ProgramTriplet) (a : MajorAuditResult) (mb : Block) :
    MajorProgram :=
  (a.college.map
     (parseBlock (t.schoolCode ++ "-COLLEGE-" ++ t.majorCode ++ "-" ++ t.degreeCode)),
   parseBlock (t.schoolCode ++ "-MAJOR-" ++ t.majorCode ++ "-" ++ t.degreeCode) mb)

/-- Translated from the loop of `Scraper.scrapePrograms`: fetch each
triplet's audit (skipping triplets with no major block), and key results
by the major block's title, keeping the first triplet for a title and
discarding later ones.  `audit` is the network oracle for
`getMajorAudit` (the division argument of the real call is derived from
the degree code and carries no extra information). -/
def scrapeProgramsGo (audit : ProgramTriplet → Option MajorAuditResult)
    (acc : List (String × MajorProgram)) :
    List ProgramTriplet → List (String × MajorProgram)
  | [] => acc
  | t :: ts =>
    match audit t with
    | none => scrapeProgramsGo audit acc ts
    | some a =>
      match a.major with
      | none => scrapeProgramsGo audit acc ts
      | some mb =>
        if alHas acc mb.title then scrapeProgramsGo audit acc ts
        else scrapeProgramsGo audit (acc ++ [(mb.title, parsedTripletValue t a mb)]) ts

/-- `Scraper.scrapePrograms` over a triplet list, starting from the
empty result map. -/
def scrapePrograms (audit : ProgramTriplet → Option MajorAuditResult)
    (ts : List ProgramTriplet) : List (String × MajorProgram) :=
  scrapeProgramsGo audit [] ts

/-- The title under which a triplet's audit would be keyed: the title of
its major block, when the audit yields one. -/
def tripletTitleOf (audit : ProgramTriplet → Option MajorAuditResult)
    (t : ProgramTriplet) : Option String :=
  (audit t).bind (fun a => a.major.map (fun mb => mb.title))

/-- The parsed value a triplet would contribute, when its audit yields a
major block. -/
def parsedTripletOf (audit : ProgramTriplet → Option MajorAuditResult)
    (t : ProgramTriplet) : Option MajorProgram :=
  (audit t).bind (fun a => a.major.map (fun mb => parsedTripletValue t a mb))

/-! ## Specialization resolution (the loop of `Scraper.run`)

Program objects that are shared by reference (the values of
`parsedPrograms` and the parents held by the specialization cache) live
in an indexed `store`; a reference is an index.  `parsedPrograms` maps a
title to the by-value college program and the reference of the major
program.  Loading the cache file deserializes fresh parent objects, so
each loaded parent is allocated at a fresh index. -/

/-- The program object at a reference. -/
def progAt (store : List DWProgram) (r : Nat) : DWProgram :=
  store.getD r default

/-- `specs.push(specCode)` on a program object. -/
def pushSpec (p : DWProgram) (specCode : String) : DWProgram :=
  { p with specs := p.specs ++ [specCode] }

/-- One `getSpecAudit` request: degree code, division (`"U"`/`"G"`),
candidate major code, specialization code. -/
structure SpecQuery where
  degree : String := ""
  division : String := ""
  majorCode : String := ""
  specCode : String := ""
deriving Repr, DecidableEq, Inhabited

/-- An in-memory `SpecializationCache` entry: a reference to the parent
program object and the specialization's audit block. -/
structure CacheEntryRef where
  parent : Nat := 0
  block : Block := {}
deriving Repr, Inhabited

/-- The state of the specialization stage, with instrumentation fields:
`calls` records every `getSpecAudit` request issued, `fileWrites`
records every cache-file write (each entry is the serialized snapshot
written), and `resolvedViaNetwork` records each `(specCode, parentRef)`
association established by a successful network query during the run. -/
structure SpecState where
  store : List DWProgram := []
  parsedPrograms : List (String × (Option DWProgram × Nat)) := []
  cache : List (String × Option CacheEntryRef) := []
  parsedSpecializations : List (String × (Nat × String × DWProgram)) := []
  calls : List SpecQuery := []
  fileWrites : List (List (String × Option (DWProgram × Block))) := []
  resolvedViaNetwork : List (String × Nat) := []
deriving Repr, Inhabited

/-- A character the JavaScript regex `.` (no flags) matches: anything
but a line terminator. -/
def jsDotMatches (c : Char) : Bool :=
  !(c == '\n' || c == '\r' || c.toNat == 8232 || c.toNat == 8233)

/-- Model of `specCode.match(/^(.+)[A-Z]$/)`: the match succeeds exactly
when the string has at least two characters, ends with an uppercase
letter, and its remaining characters contain no line terminator; the
captured group is then everything but the final letter. -/
def stripTrailingUppercase (s : String) : Option String :=
  let cs := s.toList
  let lastOk :=
    match cs.getLast? with
    | some last => decide ('A' ≤ last) && decide (last ≤ 'Z')
    | none => false
  if decide (2 ≤ cs.length) && cs.dropLast.all jsDotMatches && lastOk then
    some (String.mk cs.dropLast)
  else none

/-- Translated from `Scraper.specializationParentCandidates`: the
irregular exception binds `"OACSC"` to the program stored under the
title `"Major in Chemistry"`; otherwise, when the code matches the
major-code-plus-uppercase-letter convention, the candidates are the
major programs (in `parsedPrograms` iteration order) whose code equals
the code with its final letter stripped; otherwise there are no
candidates. -/
def specializationParentCandidates (store : List DWProgram)
    (parsedPrograms : List (String × (Option DWProgram × Nat))) (specCode : String) :
    List Nat :=
  if specCode == "OACSC" then
    match alGet parsedPrograms "Major in Chemistry" with
    | some inMap => [inMap.2]
    | none => []
  else
    match stripTrailingUppercase specCode with
    | some maybeMajorCode =>
      (parsedPrograms.filter
        (fun e => (progAt store e.2.2).code == maybeMajorCode)).map (fun e => e.2.2)
    | none => []

/-- The `getSpecAudit` request issued for a candidate program: its
degree code, the division derived from it (degree codes starting with
`"B"` are undergraduate), its major code, and the specialization
code. -/
def specQueryOf (store : List DWProgram) (r : Nat) (specCode : String) (dt : String) :
    SpecQuery :=
  { degree := dt
    division :=
      match dt.toList with
      | List.cons c _ => if c = 'B' then "U" else "G"
      | List.nil => "G"
    majorCode := (progAt store r).code
    specCode := specCode }

/-- The query issued for a candidate whose degree type is set: its
degree type (a missing one reads as `""`, but the loop throws first in
that case). -/
def queryFor (store : List DWProgram) (specCode : String) (r : Nat) : SpecQuery :=
  specQueryOf store r specCode ((progAt store r).degreeType.getD "")

/-- Whether a candidate's degree type is truthy (present and
non-empty), so that the candidate loop does not throw on it. -/
def degreeTypeTruthy (store : List DWProgram) (r : Nat) : Bool :=
  ((progAt store r).degreeType.filter (fun s => !(s == ""))).isSome

/-- Translated from the candidate loop of `Scraper.run`: try each
candidate in order; a candidate with no (or empty, hence falsy) degree
type raises `"Degree type is undefined"`; otherwise issue the audit
query, stopping at the first candidate whose query yields a block.
Returns the queries issued and the found (block, candidate) if any. -/
def tryCandidates (oracle : SpecQuery → Option Block) (store : List DWProgram)
    (specCode : String) : List Nat → Except String (List SpecQuery × Option (Block × Nat))
  | [] => .ok ([], none)
  | c :: cs =>
    match ((progAt store c).degreeType.filter (fun s => !(s == ""))) with
    | none => .error "Degree type is undefined"
    | some dt =>
      let q := specQueryOf store c specCode dt
      match oracle q with
      | some b => .ok ([q], some (b, c))
      | none => (tryCandidates oracle store specCode cs).map (fun res => (q :: res.1, res.2))

/-- The cache snapshot as serialized by
`JSON.stringify(Object.fromEntries(this.specializationCache))`: every
parent reference is dereferenced to the current state of the program
object it points to. -/
def serializeCache (store : List DWProgram) (cache : List (String × Option CacheEntryRef)) :
    List (String × Option (DWProgram × Block)) :=
  cache.map (fun e => (e.1, e.2.map (fun c => (progAt store c.parent, c.block))))

/-- The identity string the scraper passes to `parseBlock` for a
specialization (a JavaScript template, so a missing degree type prints
as `"undefined"`). -/
def specParseId (store : List DWProgram) (r : Nat) (specCode : String) : String :=
  (progAt store r).school ++ "-SPEC-" ++ specCode ++ "-" ++
    ((progAt store r).degreeType.getD "undefined")

/-- Translated from one iteration of the specialization loop of
`Scraper.run`: consult the cache (a hit, null or not, marks the entry as
not newly resolved and skips the network entirely); on a miss, try the
parent candidates in order; if a block was obtained (from the cache or
the network), push the specialization code onto the parent program
object, store the association in the in-memory cache and in
`parsedSpecializations`; otherwise store `null` in the cache; finally,
if the entry was newly resolved, write the full serialized cache
snapshot to the cache file. -/
def processSpec (oracle : SpecQuery → Option Block) (st : SpecState)
    (specCode specName : String) : Except String SpecState :=
  let cached := alGet st.cache specCode
  let hit := cached.isSome
  let fromCache : Option CacheEntryRef :=
    match cached with
    | some (some e) => some e
    | _ => none
  let trial : Except String (List SpecQuery × Option (Block × Nat)) :=
    if hit then .ok ([], none)
    else tryCandidates oracle st.store specCode
      (specializationParentCandidates st.store st.parsedPrograms specCode)
  match trial with
  | .error e => .error e
  | .ok (qs, found) =>
    let specBlock : Option Block :=
      match fromCache with
      | some e => some e.block
      | none => found.map (fun x => x.1)
    let foundMajor : Option Nat :=
      match fromCache with
      | some e => some e.parent
      | none => found.map (fun x => x.2)
    let st1 :=
      { st with
        calls := st.calls ++ qs
        resolvedViaNetwork := st.resolvedViaNetwork ++
          (match found with
           | some x => [(specCode, x.2)]
           | none => []) }
    let st2 :=
      match specBlock, foundMajor with
      | some b, some r =>
        let store := st1.store.set r (pushSpec (progAt st1.store r) specCode)
        { st1 with
          store := store
          cache := alSet st1.cache specCode (some { parent := r, block := b })
          parsedSpecializations := alSet st1.parsedSpecializations specCode
            (r, specName, parseBlock (specParseId store r specCode) b) }
      | _, _ =>
        { st1 with cache := alSet st1.cache specCode none }
    if hit then .ok st2
    else .ok { st2 with fileWrites := st2.fileWrites ++ [serializeCache st2.store st2.cache] }

/-- The specialization loop of `Scraper.run` over the
`(specCode, specName)` entries of the specialization vocabulary. -/
def specLoop (oracle : SpecQuery → Option Block) :
    SpecState → List (String × String) → Except String SpecState
  | st, [] => .ok st
  | st, e :: rest => (processSpec oracle st e.1 e.2).bind (fun st2 => specLoop oracle st2 rest)

/-- Allocate the scraped major programs into the store, producing the
reference-valued `parsedPrograms` map. -/
def allocPrograms (programs : List (String × MajorProgram)) :
    List DWProgram × List (String × (Option DWProgram × Nat)) :=
  programs.foldl
    (fun acc e => (acc.1 ++ [e.2.2], acc.2 ++ [(e.1, (e.2.1, acc.1.length))]))
    ([], [])

/-- Translated from the cache-file load in `Scraper.run`:
`JSON.parse` deserializes each non-null entry's parent as a fresh
program object, allocated here at a fresh reference past the existing
store. -/
def loadCache (store : List DWProgram) (file : List (String × Option (DWProgram × Block))) :
    List DWProgram × List (String × Option CacheEntryRef) :=
  file.foldl
    (fun acc e =>
      match e.2 with
      | none => (acc.1, acc.2 ++ [(e.1, none)])
      | some pv => (acc.1 ++ [pv.1], acc.2 ++ [(e.1, some { parent := acc.1.length, block := pv.2 })]))
    (store, [])

/-- The initial state of the specialization stage: scraped programs
allocated into the store, then the cache file loaded on top. -/
def initSpecState (programs : List (String × MajorProgram))
    (file : List (String × Option (DWProgram × Block))) : SpecState :=
  let alloc := allocPrograms programs
  let loaded := loadCache alloc.1 file
  { store := loaded.1, parsedPrograms := alloc.2, cache := loaded.2 }

/-- The specialization stage of `Scraper.run`: load the cache, then
process every known specialization in order. -/
def runSpecStage (oracle : SpecQuery → Option Block)
    (programs : List (String × MajorProgram))
    (file : List (String × Option (DWProgram × Block)))
    (specs : List (String × String)) : Except String SpecState :=
  specLoop oracle (initSpecState programs file) specs

/-- Translated from the post-processing step of `Scraper.run`: when the
Art History major and the parsed specializations `"AHGEO"` and
`"AHPER"` are all present, clear the major's specialization list,
append both specializations' requirements to the major's requirements
(in that order), and delete both entries from the specialization
map. -/
def postProcess (st : SpecState) : SpecState :=
  match alGet st.parsedPrograms "Major in Art History",
        (alGet st.parsedSpecializations "AHGEO").map (fun v => v.2.2),
        (alGet st.parsedSpecializations "AHPER").map (fun v => v.2.2) with
  | some x, some y, some z =>
    let p := progAt st.store x.2
    { st with
      store := st.store.set x.2
        { p with specs := [], requirements := p.requirements ++ y.requirements ++ z.requirements }
      parsedSpecializations := alErase (alErase st.parsedSpecializations "AHGEO") "AHPER" }
  | _, _, _ => st

/-- The specialization stage followed by post-processing. -/
def runSpecStageAndPost (oracle : SpecQuery → Option Block)
    (programs : List (String × MajorProgram))
    (file : List (String × Option (DWProgram × Block)))
    (specs : List (String × String)) : Except String SpecState :=
  (runSpecStage oracle programs file specs).map postProcess

/-! ## The orchestrator (`Scraper.run` / `Scraper.get`) -/

/-- Translated from `DegreeworksClient.getUgradRequirements`: from a
non-error audit response, the `SCHOOL` block (UC requirements) and the
`PROGRAM` block (GE requirements); `none` when the response is the error
envelope or either block is missing. -/
def getUgradRequirements (resp : Option (List Block)) : Option (Block × Block) :=
  resp.bind (fun blocks =>
    (blocks.find? (fun b => b.requirementType == "SCHOOL")).bind (fun uc =>
      (blocks.find? (fun b => b.requirementType == "PROGRAM")).map (fun ge => (uc, ge))))

/-- Translated from the minor loop of `Scraper.run`: fetch each minor's
audit, skip missing blocks, and store parsed minors keyed by block
title (`Map.set`, so a repeated title overwrites). -/
def scrapeMinors (audit : String → Option Block) (acc : List (String × DWProgram)) :
    List String → List (String × DWProgram)
  | [] => acc
  | c :: cs =>
    match audit c with
    | none => scrapeMinors audit acc cs
    | some b => scrapeMinors audit (alSet acc b.title (parseBlock ("U-MINOR-" ++ c) b)) cs

/-- `new Set(list)` keeps the first occurrence of each element, in
order. -/
def dedupFirst (l : List String) : List String :=
  l.foldl (fun acc x => if acc.contains x then acc else acc ++ [x]) []

/-- Translated from the `degreesAwarded` construction of `Scraper.run`:
the distinct degree types of the scraped programs (a missing degree
type reads as `""`), each mapped to its display name in the degree
vocabulary (or `""`). -/
def degreesAwardedOf (degrees : List (String × String)) (st : SpecState) :
    List (String × String) :=
  (dedupFirst (st.parsedPrograms.map
    (fun e => (progAt st.store e.2.2).degreeType.getD ""))).map
    (fun x => (x, (alGet degrees x).getD ""))

/-- The environment of one run: every network response and the contents
of the per-catalog-year cache file. -/
structure RunEnv where
  ugradResponse : Option (List Block) := none
  degreesMapping : List (String × String) := []
  majorsMapping : List (String × String) := []
  minorsMapping : List (String × String) := []
  specializationsMapping : List (String × String) := []
  awardTypes : List RewardType := []
  reports : List Report := []
  majorAudit : ProgramTriplet → Option MajorAuditResult := fun _ => none
  minorAudit : String → Option Block := fun _ => none
  specAudit : SpecQuery → Option Block := fun _ => none
  cacheFile : List (String × Option (DWProgram × Block)) := []

/-- The orchestrator's run-scoped state: the `done` flag and the
accumulated result maps exposed by `get()`. -/
structure ScraperModel where
  done : Bool := false
  parsedUgradRequirements : List (String × List RequirementNode) := []
  parsedMinorPrograms : List (String × DWProgram) := []
  specState : SpecState := {}
  degreesAwarded : List (String × String) := []

/-- Translated from `Scraper.run`: throw if this instance already
finished a run; return early (without error and without setting `done`)
when the undergraduate requirements cannot be fetched.  When the fetch
succeeds, the source array-destructures the returned value —
`const [ucRequirements, geRequirements] = ugradReqs` — but
`getUgradRequirements` returns the plain object `{ UC, GE, CHC4 }`,
which is not iterable, so the call throws a `TypeError` at that line:
every later stage (vocabularies, discovery, minors, majors,
specializations, post-processing) and the `done = true` assignment are
unreachable.  (Those stages are still embedded above, as
`discoverValidDegrees`, `scrapeMinors`, `scrapePrograms`,
`runSpecStage`, `degreesAwardedOf` and `postProcess`, since the claims
about them concern the stage code itself.) -/
def runModel (env : RunEnv) (st : ScraperModel) : Except String ScraperModel :=
  if st.done then .error "This scraper instance has already finished its run."
  else
    match getUgradRequirements env.ugradResponse with
    | none => .ok st
    | some _ => .error "TypeError: ugradReqs is not iterable"

/-- Translated from `Scraper.get`: throw before a finished run,
otherwise expose the accumulated result maps. -/
def getModel (st : ScraperModel) :
    Except String
      (List (String × List RequirementNode) × List (String × DWProgram) ×
        List (String × (Option DWProgram × Nat)) ×
        List (String × (Nat × String × DWProgram)) × List (String × String)) :=
  if !st.done then .error "This scraper instance has not yet finished its run."
  else .ok (st.parsedUgradRequirements, st.parsedMinorPrograms,
    st.specState.parsedPrograms, st.specState.parsedSpecializations, st.degreesAwarded)

/-! ## Concrete scenarios used by witnesses and counterexamples -/

/-- A state whose cache already associates `"161A"` with a parent: a
pure cache hit. -/
def c1State : SpecState :=
  { store := [{ code := "161", degreeType := some "BS" }]
    cache := [("161A", some { parent := 0, block := { title := "Spec block" } })] }

/-- A state whose cache does not mention `"161A"`. -/
def c2State : SpecState :=
  { store := []
    cache := [("OLD", none)] }

/-- A completed state holding the Art History major (reference 0) and
both of its parsed specializations. -/
def c6State : SpecState :=
  { store := [{ name := "Art History", code := "AHGE", degreeType := some "BA",
                requirements := [.course "AH100" none false],
                specs := ["AHGEO", "AHPER"] }]
    parsedPrograms := [("Major in Art History", (none, 0))]
    parsedSpecializations :=
      [("AHGEO", (0, "Geography", { requirements := [.course "AH110" none false] })),
       ("AHPER", (0, "Performance", { requirements := [.course "AH120" none false] }))] }

/-- The major audit block returned for the `"161A"` scenario. -/
def c3Block : Block := { requirementType := "SPEC", requirementValue := "161A",
                         title := "Spec 161A block" }

/-- A state with a previously discovered major of code `"161"` (and an
unrelated one), and no cache entry for `"161A"`. -/
def c3State : SpecState :=
  { store := [{ code := "161", degreeType := some "BS" },
              { code := "202", degreeType := some "BS" }]
    parsedPrograms := [("Major A", (none, 0)), ("Major B", (none, 1))] }

/-- An audit system that yields a block exactly for the specialization
`"161A"` under major `"161"`. -/
def c3Oracle : SpecQuery → Option Block :=
  fun q => if q.majorCode == "161" && q.specCode == "161A" then some c3Block else none

/-- An environment whose undergraduate-requirements fetch succeeds: a
run against it reaches the array destructuring and throws there. -/
def c8Env : RunEnv :=
  { ugradResponse := some [{ requirementType := "SCHOOL" }, { requirementType := "PROGRAM" }] }

/-- The codes recorded as resolved-via-network to the program at
reference `i`, in order. -/
def rvnCodesFor (rvn : List (String × Nat)) (i : Nat) : List String :=
  (rvn.filter (fun e => e.2 == i)).map (fun e => e.1)

/-- The invariant of the specialization loop, relative to the stage's
initial data: `n0` is the number of scraped programs (so references
below `n0` are `parsedPrograms` programs and references from `n0` on
are cache-loaded parent objects), `pp0` the initial (never mutated)
`parsedPrograms` map, `cache0` the loaded cache, and `remaining` the
specialization codes not yet processed. -/
def specInv (n0 : Nat) (pp0 : List (String × (Option DWProgram × Nat)))
    (cache0 : List (String × Option CacheEntryRef)) (remaining : List String)
    (st : SpecState) : Prop :=
  st.parsedPrograms = pp0 ∧
  n0 ≤ st.store.length ∧
  (∀ i, i < n0 → (progAt st.store i).specs = rvnCodesFor st.resolvedViaNetwork i) ∧
  (∀ c ∈ remaining, alGet st.cache c = alGet cache0 c) ∧
  (∀ c v, alGet st.parsedSpecializations c = some v →
    ∀ entry, alGet cache0 c = some (some entry) → v.1 = entry.parent)

/-- The loaded parent of the cache-hit specialization in the
counterexample and witness scenarios below. -/
def c10LoadedParent : DWProgram := { code := "AHGE", degreeType := some "BA" }

/-- Counterexample scenario: the Art History major (code `"AHGE"`),
specialization `"AHGEO"` resolvable over the network, `"AHPER"` a
non-null cache hit. -/
def c10Programs : List (String × MajorProgram) :=
  [("Major in Art History", (none, { name := "Art History", code := "AHGE",
                                     degreeType := some "BA", school := "U" }))]

def c10File : List (String × Option (DWProgram × Block)) :=
  [("AHPER", some (c10LoadedParent, { title := "AHPER block" }))]

def c10Specs : List (String × String) := [("AHGEO", "Geo"), ("AHPER", "Per")]

def c10Oracle : SpecQuery → Option Block :=
  fun q => if q.specCode == "AHGEO" then some { title := "AHGEO block" } else none

/-- Witness scenario: one discovered major of code `"161"`, a cache-hit
specialization `"CCHIT"` with a loaded parent, and `"161A"` resolved
over the network. -/
def c10wPrograms : List (String × MajorProgram) :=
  [("Major X", (none, { name := "Major X", code := "161",
                        degreeType := some "BS", school := "U" }))]

def c10wFile : List (String × Option (DWProgram × Block)) :=
  [("CCHIT", some ({ code := "999", degreeType := some "BS" }, { title := "CCHIT block" }))]

def c10wSpecs : List (String × String) := [("161A", "Spec A"), ("CCHIT", "Cached spec")]

/-! # Theorems

First a collection of lemmas about the association-list `Map` model,
then one theorem (plus witness or counterexample where required) per
claim. -/

theorem alGet_cons {α : Type} (k0 : String) (v : α) (l : List (String × α)) (k : String) :
    alGet ((k0, v) :: l) k = if k0 = k then some v else alGet l k := by
  by_cases h : k0 = k <;> simp [alGet, List.find?_cons, h]

theorem alGet_append {α : Type} (l1 l2 : List (String × α)) (k : String) :
    alGet (l1 ++ l2) k = (alGet l1 k).or (alGet l2 k) := by
  induction l1 with
  | nil => simp [alGet]
  | cons e l ih =>
    rcases e with ⟨k0, v⟩
    by_cases h : k0 = k <;> simp [alGet_cons, h, ih]

theorem alGet_eq_none_iff {α : Type} (l : List (String × α)) (k : String) :
    alGet l k = none ↔ ∀ e ∈ l, e.1 ≠ k := by
  simp [alGet, List.find?_eq_none]

theorem alHas_iff {α : Type} (l : List (String × α)) (k : String) :
    alHas l k = true ↔ ∃ v, alGet l k = some v := by
  simp [alHas, Option.isSome_iff_exists]

theorem alGet_map_replace {α : Type} (l : List (String × α)) (k : String) (v : α) :
    alGet (l.map (fun e => if e.1 == k then (k, v) else e)) k =
      if alHas l k then some v else none := by
  induction l with
  | nil => simp [alGet, alHas]
  | cons e l ih =>
    rcases e with ⟨k0, w⟩
    by_cases h : k0 = k
    · simp [h, alGet_cons, alHas]
    · simp only [List.map_cons]
      rw [if_neg (by simp [h])]
      rw [alGet_cons, if_neg h, ih]
      have : alHas ((k0, w) :: l) k = alHas l k := by
        simp [alHas, alGet_cons, if_neg h]
      rw [this]

theorem alGet_map_replace_ne {α : Type} (l : List (String × α)) (k k' : String) (v : α)
    (h : k' ≠ k) :
    alGet (l.map (fun e => if e.1 == k then (k, v) else e)) k' = alGet l k' := by
  induction l with
  | nil => simp
  | cons e l ih =>
    rcases e with ⟨k0, w⟩
    by_cases hk : k0 = k
    · subst hk
      have hmap : (((k0, w) :: l).map (fun e => if e.1 == k0 then (k0, v) else e)) =
          (k0, v) :: l.map (fun e => if e.1 == k0 then (k0, v) else e) := by
        simp
      rw [hmap, alGet_cons, alGet_cons, if_neg (fun hh => h hh.symm),
        if_neg (fun hh => h hh.symm), ih]
    · simp only [List.map_cons]
      rw [if_neg (by simp [hk])]
      by_cases hk' : k0 = k'
      · simp [alGet_cons, hk']
      · rw [alGet_cons, alGet_cons, if_neg hk', if_neg hk', ih]

theorem alGet_alSet_self {α : Type} (l : List (String × α)) (k : String) (v : α) :
    alGet (alSet l k v) k = some v := by
  unfold alSet
  by_cases h : alHas l k
  · rw [if_pos h, alGet_map_replace, if_pos h]
  · rw [if_neg h, alGet_append]
    have hnone : alGet l k = none := by
      rcases hv : alGet l k with _ | v0
      · rfl
      · exact absurd ((alHas_iff l k).mpr ⟨v0, hv⟩) h
    simp [hnone, alGet_cons]

theorem alGet_alSet_ne {α : Type} (l : List (String × α)) (k k' : String) (v : α)
    (h : k' ≠ k) : alGet (alSet l k v) k' = alGet l k' := by
  unfold alSet
  by_cases hh : alHas l k
  · rw [if_pos hh, alGet_map_replace_ne _ _ _ _ h]
  · rw [if_neg hh, alGet_append]
    have hone : alGet [(k, v)] k' = none := by
      rw [alGet_cons, if_neg (fun hh2 => h hh2.symm)]
      rfl
    simp [hone]

theorem alGet_alErase_self {α : Type} (l : List (String × α)) (k : String) :
    alGet (alErase l k) k = none := by
  rw [alGet_eq_none_iff]
  intro e he
  have := List.of_mem_filter he
  simpa using this

theorem alGet_alErase_ne {α : Type} (l : List (String × α)) (k k' : String)
    (h : k' ≠ k) : alGet (alErase l k) k' = alGet l k' := by
  induction l with
  | nil => simp [alErase]
  | cons e l ih =>
    rcases e with ⟨k0, w⟩
    by_cases hk : k0 = k
    · subst hk
      have : alErase ((k0, w) :: l) k0 = alErase l k0 := by simp [alErase]
      rw [this, ih, alGet_cons, if_neg (fun hh => h hh.symm)]
    · have : alErase ((k0, w) :: l) k = (k0, w) :: alErase l k := by
        simp [alErase, hk]
      rw [this, alGet_cons, alGet_cons, ih]

/-! ### The parser invariant (C9) -/

theorem goodNodes_append (a b : List RequirementNode) :
    goodNodes (a ++ b) = (goodNodes a && goodNodes b) := by
  induction a with
  | nil => simp [goodNodes]
  | cons n ns ih => simp [goodNodes, ih, Bool.and_assoc]

mutual

theorem parseRule_good (r : Rule) : goodNodes (parseRule r) = true := by
  match r with
  | .course c g q => simp [parseRule, goodNodes, goodNode]
  | .exam e g => simp [parseRule, goodNodes, goodNode]
  | .unknown => simp [parseRule, goodNodes]
  | .subBlock t rs =>
    have h := parseRules_good rs
    simpa [parseRule] using h
  | .group k rs =>
    have h := parseRules_good rs
    simp only [parseRule]
    by_cases he : (parseRules rs).isEmpty
    · simp [he, goodNodes]
    · cases k <;> simp [he, goodNodes, goodNode, GroupKind.node, h]

theorem parseRules_good (rs : List Rule) : goodNodes (parseRules rs) = true := by
  match rs with
  | [] => simp [parseRules, goodNodes]
  | r :: rest =>
    have h1 := parseRule_good r
    have h2 := parseRules_good rest
    simp [parseRules, goodNodes_append, h1, h2]

end

mutual

theorem descendants_goodShape (n : RequirementNode) (h : goodNode n = true) :
    (descendants n).all goodShape = true := by
  match n with
  | .course c g q => simp [descendants, goodShape, isLeaf, isConcrete, childrenOf]
  | .exam e g => simp [descendants, goodShape, isLeaf, isConcrete, childrenOf]
  | .allOf cs =>
    simp only [goodNode, Bool.and_eq_true, Bool.not_eq_true'] at h
    obtain ⟨h1, h2⟩ := h
    have hrec := descendantsList_goodShape cs h2
    have hne : cs ≠ [] := by
      intro hnil
      rw [hnil] at h1
      simp at h1
    have hlen : 1 ≤ cs.length := List.length_pos.mpr hne
    simp [descendants, List.all_cons, hrec, goodShape, isLeaf, isConcrete, childrenOf, h1, hlen]
  | .anyOf cs =>
    simp only [goodNode, Bool.and_eq_true, Bool.not_eq_true'] at h
    obtain ⟨h1, h2⟩ := h
    have hrec := descendantsList_goodShape cs h2
    have hne : cs ≠ [] := by
      intro hnil
      rw [hnil] at h1
      simp at h1
    have hlen : 1 ≤ cs.length := List.length_pos.mpr hne
    simp [descendants, List.all_cons, hrec, goodShape, isLeaf, isConcrete, childrenOf, h1, hlen]
  | .noneOf cs =>
    simp only [goodNode, Bool.and_eq_true, Bool.not_eq_true'] at h
    obtain ⟨h1, h2⟩ := h
    have hrec := descendantsList_goodShape cs h2
    have hne : cs ≠ [] := by
      intro hnil
      rw [hnil] at h1
      simp at h1
    have hlen : 1 ≤ cs.length := List.length_pos.mpr hne
    simp [descendants, List.all_cons, hrec, goodShape, isLeaf, isConcrete, childrenOf, h1, hlen]

theorem descendantsList_goodShape (ns : List RequirementNode) (h : goodNodes ns = true) :
    (descendantsList ns).all goodShape = true := by
  match ns with
  | [] => simp [descendantsList]
  | n :: rest =>
    simp only [goodNodes, Bool.and_eq_true] at h
    have h1 := descendants_goodShape n h.1
    have h2 := descendantsList_goodShape rest h.2
    simp [descendantsList, List.all_append, h1, h2]

end

/-- **C9**: for every requirement tree produced by the parser, every
leaf node is a course or exam requirement, and no internal node
(`allOf`/`anyOf`/`noneOf`) has zero children: empty groups are dropped
rather than emitted.  (Every node of every tree in the output of
`parseRules`, descendants included, satisfies `goodShape`.) -/
theorem c9_parsed_trees_well_formed (rs : List Rule) :
    (descendantsList (parseRules rs)).all goodShape = true :=
  descendantsList_goodShape (parseRules rs) (parseRules_good rs)

/-! ### Catalog-year bootstrap (C4) -/

/-- **C4** counterexample: with a probe audit that yields no data for
any catalog year — in particular for both candidate years — client
construction is not fatal: it succeeds, silently falling back to the
prior year, and only ever probes the forward-looking year. -/
theorem c4_counterexample :
    degreeworksClientNew (fun _ => false) 2025 "12345678" =
      .ok { studentId := "12345678", catalogYear := "20242025",
            probedYears := ["20252026"] } := by
  rfl

/-- **C4** (amended): `DegreeworksClient.new` probes only the
forward-looking catalog year; when that probe yields no data it falls
back to the prior year without probing it, and construction always
succeeds — there is no fatal path based on probe results. -/
theorem c4_bootstrap_never_fatal (probe : String → Bool) (y : Nat) (sid : String) :
    ∃ c, degreeworksClientNew probe y sid = .ok c ∧
      c.probedYears = [toString y ++ toString (y + 1)] ∧
      (probe (toString y ++ toString (y + 1)) = false →
        c.catalogYear = toString (y - 1) ++ toString y) := by
  unfold degreeworksClientNew
  by_cases h : probe (toString y ++ toString (y + 1)) = true
  · rw [if_pos h]
    exact ⟨_, rfl, rfl, fun hf => by rw [hf] at h; exact absurd h (by simp)⟩
  · rw [if_neg h]
    exact ⟨_, rfl, rfl, fun _ => rfl⟩

/-- Witness for **C4** (amended), at a probe that always fails. -/
theorem c4_witness :
    ∃ c, degreeworksClientNew (fun _ => false) 2025 "12345678" = .ok c ∧
      c.probedYears = ["20252026"] ∧ c.catalogYear = "20242025" := by
  obtain ⟨c, h1, h2, h3⟩ := c4_bootstrap_never_fatal (fun _ => false) 2025 "12345678"
  refine ⟨c, h1, ?_, ?_⟩
  · rw [h2]
    rfl
  · rw [h3 rfl]
    rfl

/-! ### The discovery filter (C5) -/

/-- **C5**: the discovery filter excludes every catalog report entry
whose major has an `endTermYyyyst` denoting a year strictly before the
cutoff year 2006, and includes every entry whose major has no end term
(null or empty), provided the entry's degree code is non-null and its
major code appears in the audit system's major vocabulary. -/
theorem c5_discovery_filter (majors : List String) (ent : Report) :
    (∀ t, ent.endTermYyyyst = some t → t ≠ "" →
      (∀ y, endTermParsedYear t = some y → y < 2006) →
      discoveryFilter majors ent = false) ∧
    ((ent.endTermYyyyst = none ∨ ent.endTermYyyyst = some "") →
      ent.degreeCode.isSome = true → majors.contains ent.majorCode = true →
      discoveryFilter majors ent = true) := by
  constructor
  · intro t ht hne hy
    unfold discoveryFilter
    rw [ht]
    have hbeq : (t == "") = false := by simp [hne]
    cases hp : endTermParsedYear t with
    | none => simp [hbeq, hp]
    | some yv =>
      have hlt := hy yv hp
      have : decide (2006 ≤ yv) = false := by simp; omega
      simp [hbeq, hp, this]
  · intro hterm hdeg hmaj
    rw [List.contains_iff_exists_mem_beq] at hmaj
    obtain ⟨a, ha, hab⟩ := hmaj
    have hmaj : ent.majorCode ∈ majors := by
      have heq : ent.majorCode = a := by simpa using hab
      rw [heq.symm] at ha
      exact ha
    unfold discoveryFilter
    rcases hterm with h | h <;> rw [h] <;> simp [hdeg, hmaj]

/-- Witness for **C5**: an entry with no end term, a non-null degree
code and a known major code passes the filter; an entry whose end term
`"F98"` denotes 1998 is excluded. -/
theorem c5_witness :
    discoveryFilter ["201"] { majorCode := "201", degreeCode := some "1" } = true ∧
    discoveryFilter ["201"]
      { majorCode := "201", degreeCode := some "1", endTermYyyyst := some "F98" } = false := by
  constructor
  · exact (c5_discovery_filter ["201"] _).2 (Or.inl rfl) rfl (by decide)
  · refine (c5_discovery_filter ["201"] _).1 "F98" rfl (by decide) ?_
    intro y hy
    have hv : endTermParsedYear "F98" = some 1998 := by decide
    rw [hv] at hy
    have := Option.some.inj hy
    omega

/-! ### Major scraping dedup (C7) -/

theorem alGet_none_of_alHas_false {α : Type} (l : List (String × α)) (k : String)
    (h : alHas l k = false) : alGet l k = none := by
  rcases hv : alGet l k with _ | v
  · rfl
  · rw [alHas, hv] at h
    cases h

theorem not_mem_keys_of_alHas_false {α : Type} (l : List (String × α)) (k : String)
    (h : alHas l k = false) : k ∉ alKeys l := by
  intro hk
  simp only [alKeys, List.mem_map] at hk
  obtain ⟨e, he, hek⟩ := hk
  exact absurd hek ((alGet_eq_none_iff l k).mp (alGet_none_of_alHas_false l k h) e he)

theorem scrapeProgramsGo_alGet (audit : ProgramTriplet → Option MajorAuditResult)
    (ts : List ProgramTriplet) : ∀ (acc : List (String × MajorProgram)) (T : String),
    alGet (scrapeProgramsGo audit acc ts) T =
      (alGet acc T).or
        ((ts.find? (fun t => tripletTitleOf audit t == some T)).bind (parsedTripletOf audit)) := by
  induction ts with
  | nil =>
    intro acc T
    cases hv : alGet acc T <;> simp [scrapeProgramsGo, hv]
  | cons t ts ih =>
    intro acc T
    rcases ha : audit t with _ | a
    · have hti : tripletTitleOf audit t = none := by simp [tripletTitleOf, ha]
      have hstep : scrapeProgramsGo audit acc (t :: ts) = scrapeProgramsGo audit acc ts := by
        simp [scrapeProgramsGo, ha]
      have hfind : List.find? (fun t2 => tripletTitleOf audit t2 == some T) (t :: ts) =
          List.find? (fun t2 => tripletTitleOf audit t2 == some T) ts := by
        rw [List.find?_cons]
        simp [hti]
      rw [hstep, hfind]
      exact ih acc T
    · rcases hm : a.major with _ | mb
      · have hti : tripletTitleOf audit t = none := by simp [tripletTitleOf, ha, hm]
        have hstep : scrapeProgramsGo audit acc (t :: ts) = scrapeProgramsGo audit acc ts := by
          simp [scrapeProgramsGo, ha, hm]
        have hfind : List.find? (fun t2 => tripletTitleOf audit t2 == some T) (t :: ts) =
            List.find? (fun t2 => tripletTitleOf audit t2 == some T) ts := by
          rw [List.find?_cons]
          simp [hti]
        rw [hstep, hfind]
        exact ih acc T
      · have hti : tripletTitleOf audit t = some mb.title := by simp [tripletTitleOf, ha, hm]
        have hpv : parsedTripletOf audit t = some (parsedTripletValue t a mb) := by
          simp [parsedTripletOf, ha, hm]
        by_cases htitle : mb.title = T
        · subst htitle
          have hfind : (List.find? (fun t2 => tripletTitleOf audit t2 == some mb.title)
              (t :: ts)) = some t := by
            rw [List.find?_cons]
            simp [hti]
          by_cases hhas : alHas acc mb.title
          · obtain ⟨v, hv⟩ := (alHas_iff acc mb.title).mp hhas
            have hstep : scrapeProgramsGo audit acc (t :: ts) = scrapeProgramsGo audit acc ts := by
              simp [scrapeProgramsGo, ha, hm, hhas]
            rw [hstep, ih acc mb.title, hfind, hv]
            simp [hpv]
          · have hnone := alGet_none_of_alHas_false acc mb.title (by simpa using hhas)
            have hstep : scrapeProgramsGo audit acc (t :: ts) =
                scrapeProgramsGo audit (acc ++ [(mb.title, parsedTripletValue t a mb)]) ts := by
              simp only [scrapeProgramsGo, ha, hm]
              rw [if_neg hhas]
            rw [hstep, ih _ mb.title, hfind, alGet_append, hnone, alGet_cons]
            simp [hpv]
        · have hfind : (List.find? (fun t2 => tripletTitleOf audit t2 == some T) (t :: ts)) =
              List.find? (fun t2 => tripletTitleOf audit t2 == some T) ts := by
            rw [List.find?_cons]
            have hne : (tripletTitleOf audit t == some T) = false := by
              simp [hti, htitle]
            simp [hne]
          by_cases hhas : alHas acc mb.title
          · have hstep : scrapeProgramsGo audit acc (t :: ts) = scrapeProgramsGo audit acc ts := by
              simp [scrapeProgramsGo, ha, hm, hhas]
            rw [hstep, ih acc T, hfind]
          · have hstep : scrapeProgramsGo audit acc (t :: ts) =
                scrapeProgramsGo audit (acc ++ [(mb.title, parsedTripletValue t a mb)]) ts := by
              simp only [scrapeProgramsGo, ha, hm]
              rw [if_neg hhas]
            rw [hstep, ih _ T, hfind, alGet_append]
            have hsingle : alGet [(mb.title, parsedTripletValue t a mb)] T = none := by
              rw [alGet_cons, if_neg htitle]
              rfl
            rw [hsingle]
            cases alGet acc T <;> rfl

theorem scrapeProgramsGo_keys_nodup (audit : ProgramTriplet → Option MajorAuditResult)
    (ts : List ProgramTriplet) : ∀ (acc : List (String × MajorProgram)),
    (alKeys acc).Nodup → (alKeys (scrapeProgramsGo audit acc ts)).Nodup := by
  induction ts with
  | nil => intro acc h; simpa [scrapeProgramsGo] using h
  | cons t ts ih =>
    intro acc h
    rcases ha : audit t with _ | a
    · simpa [scrapeProgramsGo, ha] using ih acc h
    · rcases hm : a.major with _ | mb
      · simpa [scrapeProgramsGo, ha, hm] using ih acc h
      · by_cases hhas : alHas acc mb.title
        · simpa [scrapeProgramsGo, ha, hm, if_pos hhas] using ih acc h
        · simp only [scrapeProgramsGo, ha, hm, if_neg hhas]
          apply ih
          have hnm := not_mem_keys_of_alHas_false acc mb.title (by simpa using hhas)
          simp [alKeys] at h hnm ⊢
          simp [List.nodup_append, h, hnm]

/-- **C7**: when scraping major programs over the discovered triplets,
results are keyed by the audit block's title: the entry stored for a
title is the parse of the first triplet yielding that title, every later
triplet with the same title is discarded, and each title maps to exactly
one parsed program (the key list has no duplicates). -/
theorem c7_major_dedup_by_title (audit : ProgramTriplet → Option MajorAuditResult)
    (ts : List ProgramTriplet) :
    (∀ T, alGet (scrapePrograms audit ts) T =
      ((ts.find? (fun t => tripletTitleOf audit t == some T)).bind (parsedTripletOf audit))) ∧
    (alKeys (scrapePrograms audit ts)).Nodup := by
  constructor
  · intro T
    rw [scrapePrograms, scrapeProgramsGo_alGet]
    rfl
  · exact scrapeProgramsGo_keys_nodup audit ts [] (by simp [alKeys])

/-! ### Post-processing (C6) -/

theorem progAt_set_self (store : List DWProgram) (r : Nat) (p : DWProgram)
    (h : r < store.length) : progAt (store.set r p) r = p := by
  unfold progAt
  rw [List.getD_eq_getElem?_getD, List.getElem?_set_self h]
  rfl

theorem progAt_set_ne (store : List DWProgram) (r r' : Nat) (p : DWProgram)
    (h : r' ≠ r) : progAt (store.set r p) r' = progAt store r' := by
  unfold progAt
  rw [List.getD_eq_getElem?_getD, List.getD_eq_getElem?_getD,
    List.getElem?_set_ne (fun hh => h hh.symm)]

/-- **C6**: after `postProcess`, when the Art History major and the
parsed specializations `AHGEO` and `AHPER` were all resolved, the codes
`AHGEO` and `AHPER` are absent from the final specialization map, and
the Art History major's requirement list is the concatenation of its
own original requirements, then `AHGEO`'s, then `AHPER`'s, in that
order. -/
theorem c6_art_history_merge (st : SpecState) (x : Option DWProgram × Nat)
    (y z : Nat × String × DWProgram)
    (hx : alGet st.parsedPrograms "Major in Art History" = some x)
    (hy : alGet st.parsedSpecializations "AHGEO" = some y)
    (hz : alGet st.parsedSpecializations "AHPER" = some z)
    (hr : x.2 < st.store.length) :
    alGet (postProcess st).parsedSpecializations "AHGEO" = none ∧
    alGet (postProcess st).parsedSpecializations "AHPER" = none ∧
    (progAt (postProcess st).store x.2).requirements =
      (progAt st.store x.2).requirements ++ y.2.2.requirements ++ z.2.2.requirements := by
  unfold postProcess
  simp only [hx, hy, hz, Option.map_some']
  refine ⟨?_, ?_, ?_⟩
  · rw [alGet_alErase_ne _ _ _ (by decide), alGet_alErase_self]
  · rw [alGet_alErase_self]
  · rw [progAt_set_self _ _ _ hr]

/-! ### Specialization cache behavior (C1, C2) -/

/-- **C1**: for a specialization code already present in the loaded
cache, processing that code issues zero network calls (`calls`
unchanged), performs no write to the cache file (`fileWrites`
unchanged), and, when the cached entry is non-null, records the parent
program identity stored in the cache in the run's specialization
results. -/
theorem c1_cache_hit_no_io (oracle : SpecQuery → Option Block) (st : SpecState)
    (specCode specName : String) (entry : Option CacheEntryRef)
    (h : alGet st.cache specCode = some entry) :
    ∃ st2, processSpec oracle st specCode specName = .ok st2 ∧
      st2.calls = st.calls ∧ st2.fileWrites = st.fileWrites ∧
      (∀ e, entry = some e →
        ∃ nm pr, alGet st2.parsedSpecializations specCode = some (e.parent, nm, pr)) := by
  cases entry with
  | none =>
    simp only [processSpec, h]
    refine ⟨_, rfl, by simp, rfl, ?_⟩
    intro e he
    cases he
  | some e =>
    simp only [processSpec, h]
    refine ⟨_, rfl, by simp, rfl, ?_⟩
    intro e2 he2
    obtain rfl : e = e2 := Option.some.inj he2
    exact ⟨specName, _, alGet_alSet_self _ _ _⟩

/-- Witness for **C1**, at a concrete cache-hit state. -/
theorem c1_witness :
    ∃ st2, processSpec (fun _ => none) c1State "161A" "Spec A" = .ok st2 ∧
      st2.calls = c1State.calls ∧ st2.fileWrites = c1State.fileWrites ∧
      (∀ e, (some { parent := 0, block := { title := "Spec block" } } : Option CacheEntryRef) =
          some e →
        ∃ nm pr, alGet st2.parsedSpecializations "161A" = some (e.parent, nm, pr)) :=
  c1_cache_hit_no_io (fun _ => none) c1State "161A" "Spec A"
    (some { parent := 0, block := { title := "Spec block" } }) rfl

/-- **C2**: processing a specialization code not present in the cache
(whether it resolves to a parent or is marked null) appends exactly one
cache-file write, whose content is the full serialized snapshot of the
cache after this entry's update (all previously loaded entries plus
every entry resolved so far, this one included); the write happens
within the iteration, not batched at the end of the stage. -/
theorem c2_per_entry_cache_write (oracle : SpecQuery → Option Block) (st : SpecState)
    (specCode specName : String)
    (hmiss : alGet st.cache specCode = none) :
    ∀ st2, processSpec oracle st specCode specName = .ok st2 →
      st2.fileWrites = st.fileWrites ++ [serializeCache st2.store st2.cache] ∧
      alHas st2.cache specCode = true := by
  intro st2 hok
  unfold processSpec at hok
  rw [hmiss] at hok
  rcases htc : tryCandidates oracle st.store specCode
      (specializationParentCandidates st.store st.parsedPrograms specCode) with e | ⟨qs, found⟩ <;>
    rw [htc] at hok
  · exact absurd hok (by simp)
  · rcases found with _ | ⟨b, c⟩
    · have h2 := Except.ok.inj hok
      rw [h2.symm]
      refine ⟨rfl, ?_⟩
      simp [alHas, alGet_alSet_self]
    · have h2 := Except.ok.inj hok
      rw [h2.symm]
      refine ⟨rfl, ?_⟩
      simp [alHas, alGet_alSet_self]

/-- Witness for **C2**, at a concrete cache-miss state. -/
theorem c2_witness :
    ∃ st2, processSpec (fun _ => none) c2State "161A" "Spec A" = .ok st2 ∧
      st2.fileWrites = c2State.fileWrites ++ [serializeCache st2.store st2.cache] ∧
      alHas st2.cache "161A" = true := by
  refine ⟨_, rfl, ?_, ?_⟩
  · exact (c2_per_entry_cache_write (fun _ => none) c2State "161A" "Spec A" rfl _ rfl).1
  · exact (c2_per_entry_cache_write (fun _ => none) c2State "161A" "Spec A" rfl _ rfl).2

/-! ### Heuristic parent resolution (C3) -/

theorem tryCandidates_all_fail (oracle : SpecQuery → Option Block) (store : List DWProgram)
    (specCode : String) : ∀ cands : List Nat,
    (∀ x ∈ cands, degreeTypeTruthy store x = true) →
    (∀ x ∈ cands, oracle (queryFor store specCode x) = none) →
    tryCandidates oracle store specCode cands =
      .ok (cands.map (queryFor store specCode), none) := by
  intro cands
  induction cands with
  | nil => intro _ _; rfl
  | cons c cs ih =>
    intro htruthy hfail
    have hc := htruthy c (by simp)
    rcases hdt : (progAt store c).degreeType with _ | dt
    · rw [degreeTypeTruthy, hdt] at hc
      cases hc
    · have hne : (dt == "") = false := by
        rw [degreeTypeTruthy, hdt] at hc
        rcases hd : (dt == "") with _ | _
        · rfl
        · rw [Option.filter] at hc
          simp [hd] at hc
      have hq : queryFor store specCode c = specQueryOf store c specCode dt := by
        rw [queryFor, hdt]
        rfl
      have hfilter : (progAt store c).degreeType.filter (fun s => !(s == "")) = some dt := by
        rw [hdt, Option.filter]
        simp [hne]
      rw [tryCandidates, hfilter]
      dsimp only
      rw [show oracle (specQueryOf store c specCode dt) = none from hq ▸ hfail c (by simp)]
      rw [ih (fun x hx => htruthy x (by simp [hx])) (fun x hx => hfail x (by simp [hx]))]
      dsimp only
      rw [List.map_cons, hq]
      rfl

theorem tryCandidates_first_success (oracle : SpecQuery → Option Block)
    (store : List DWProgram) (specCode : String) : ∀ (pre : List Nat) (r : Nat)
    (post : List Nat) (b : Block),
    (∀ x ∈ pre ++ [r], degreeTypeTruthy store x = true) →
    (∀ x ∈ pre, oracle (queryFor store specCode x) = none) →
    oracle (queryFor store specCode r) = some b →
    tryCandidates oracle store specCode (pre ++ r :: post) =
      .ok ((pre ++ [r]).map (queryFor store specCode), some (b, r)) := by
  intro pre
  induction pre with
  | nil =>
    intro r post b htruthy _ hb
    have hc := htruthy r (by simp)
    rcases hdt : (progAt store r).degreeType with _ | dt
    · rw [degreeTypeTruthy, hdt] at hc
      cases hc
    · have hne : (dt == "") = false := by
        rw [degreeTypeTruthy, hdt] at hc
        rcases hd : (dt == "") with _ | _
        · rfl
        · rw [Option.filter] at hc
          simp [hd] at hc
      have hq : queryFor store specCode r = specQueryOf store r specCode dt := by
        rw [queryFor, hdt]
        rfl
      have hfilter : (progAt store r).degreeType.filter (fun s => !(s == "")) = some dt := by
        rw [hdt, Option.filter]
        simp [hne]
      simp only [List.nil_append, List.map_cons, List.map_nil]
      rw [tryCandidates, hfilter]
      dsimp only
      rw [show oracle (specQueryOf store r specCode dt) = some b from hq ▸ hb, hq]
  | cons c cs ih =>
    intro r post b htruthy hfail hb
    have hc := htruthy c (by simp)
    rcases hdt : (progAt store c).degreeType with _ | dt
    · rw [degreeTypeTruthy, hdt] at hc
      cases hc
    · have hne : (dt == "") = false := by
        rw [degreeTypeTruthy, hdt] at hc
        rcases hd : (dt == "") with _ | _
        · rfl
        · rw [Option.filter] at hc
          simp [hd] at hc
      have hq : queryFor store specCode c = specQueryOf store c specCode dt := by
        rw [queryFor, hdt]
        rfl
      have hfilter : (progAt store c).degreeType.filter (fun s => !(s == "")) = some dt := by
        rw [hdt, Option.filter]
        simp [hne]
      have hrec := ih r post b (fun x hx => htruthy x (by simp at hx ⊢; tauto))
        (fun x hx => hfail x (by simp [hx])) hb
      simp only [List.cons_append]
      rw [tryCandidates, hfilter]
      dsimp only
      rw [show oracle (specQueryOf store c specCode dt) = none from hq ▸ hfail c (by simp),
        hrec]
      dsimp only
      rw [List.map_cons, hq]
      rfl

/-- **C3**: for a specialization code with no cache entry, the resolver
first applies the hard-coded exception (`"OACSC"` is bound to the
program under `"Major in Chemistry"`); otherwise, when the code has the
suffixed-major-code shape, the candidates are exactly the discovered
programs whose code equals the code with its trailing uppercase letter
stripped; the audit system is queried for each candidate in order until
one yields a block (that candidate becoming the parent); and when no
candidate yields data the code is marked unresolved (`null` cache
entry, no specialization result). -/
theorem c3_heuristic_resolution (oracle : SpecQuery → Option Block) (st : SpecState)
    (specCode specName : String)
    (hmiss : alGet st.cache specCode = none) :
    (specCode = "OACSC" →
      specializationParentCandidates st.store st.parsedPrograms specCode =
        (match alGet st.parsedPrograms "Major in Chemistry" with
         | some inMap => [inMap.2]
         | none => [])) ∧
    (specCode ≠ "OACSC" → ∀ m, stripTrailingUppercase specCode = some m →
      specializationParentCandidates st.store st.parsedPrograms specCode =
        (st.parsedPrograms.filter
          (fun e => (progAt st.store e.2.2).code == m)).map (fun e => e.2.2)) ∧
    (∀ pre r post b,
      specializationParentCandidates st.store st.parsedPrograms specCode = pre ++ r :: post →
      (∀ x ∈ pre ++ [r], degreeTypeTruthy st.store x = true) →
      (∀ x ∈ pre, oracle (queryFor st.store specCode x) = none) →
      oracle (queryFor st.store specCode r) = some b →
      ∃ st2, processSpec oracle st specCode specName = .ok st2 ∧
        st2.calls = st.calls ++ (pre ++ [r]).map (queryFor st.store specCode) ∧
        alGet st2.cache specCode = some (some { parent := r, block := b }) ∧
        (∃ pr, alGet st2.parsedSpecializations specCode = some (r, specName, pr))) ∧
    ((∀ x ∈ specializationParentCandidates st.store st.parsedPrograms specCode,
        degreeTypeTruthy st.store x = true) →
      (∀ x ∈ specializationParentCandidates st.store st.parsedPrograms specCode,
        oracle (queryFor st.store specCode x) = none) →
      ∃ st2, processSpec oracle st specCode specName = .ok st2 ∧
        st2.calls = st.calls ++
          (specializationParentCandidates st.store st.parsedPrograms specCode).map
            (queryFor st.store specCode) ∧
        alGet st2.cache specCode = some none ∧
        alGet st2.parsedSpecializations specCode = alGet st.parsedSpecializations specCode) := by
  refine ⟨?_, ?_, ?_, ?_⟩
  · intro h
    subst h
    cases hchem : alGet st.parsedPrograms "Major in Chemistry" <;>
      simp [specializationParentCandidates, hchem]
  · intro hne m hm
    rw [specializationParentCandidates, if_neg (by simpa using hne), hm]
  · intro pre r post b hcands htruthy hfail hb
    have htc := tryCandidates_first_success oracle st.store specCode pre r post b
      htruthy hfail hb
    simp only [processSpec, hmiss, hcands, htc]
    refine ⟨_, rfl, by simp, alGet_alSet_self _ _ _, ?_⟩
    exact ⟨_, alGet_alSet_self _ _ _⟩
  · intro htruthy hfail
    have htc := tryCandidates_all_fail oracle st.store specCode
      (specializationParentCandidates st.store st.parsedPrograms specCode) htruthy hfail
    simp only [processSpec, hmiss, htc]
    refine ⟨_, rfl, by simp, alGet_alSet_self _ _ _, rfl⟩

/-- Witness for **C3**: the `"161A"` scenario — with no cache entry and
a discovered major of code `"161"`, that major is the sole candidate,
it is queried first, and it becomes the parent. -/
theorem c3_witness :
    ∃ st2, processSpec c3Oracle c3State "161A" "Spec 161A" = .ok st2 ∧
      st2.calls = c3State.calls ++ [queryFor c3State.store "161A" 0] ∧
      alGet st2.cache "161A" = some (some { parent := 0, block := c3Block }) ∧
      (∃ pr, alGet st2.parsedSpecializations "161A" = some (0, "Spec 161A", pr)) := by
  have h := (c3_heuristic_resolution c3Oracle c3State "161A" "Spec 161A" rfl).2.2.1
    [] 0 [] c3Block rfl (by decide) (by simp) rfl
  simpa using h

/-! ### Aliasing of resolved parents (C10) -/

/-- **C10** counterexample: `"AHGEO"` is newly resolved via network to
the Art History program (reference 0, recorded in
`resolvedViaNetwork`), yet after `run()`'s specialization stage and
post-processing that program's `specs` list is empty — the Art History
merge clears it — so "after run() completes, a program in
parsedPrograms has specCode in its specs list exactly when that
specialization was newly resolved to it via network during this run"
fails as stated. -/
theorem c10_counterexample :
    (runSpecStageAndPost c10Oracle c10Programs c10File c10Specs).map
      (fun st => (st.resolvedViaNetwork, (progAt st.store 0).specs)) =
    .ok ([("AHGEO", 0)], []) := by
  rfl

theorem alGet_mem {α : Type} (l : List (String × α)) (k : String) (v : α)
    (h : alGet l k = some v) : (k, v) ∈ l := by
  unfold alGet at h
  rcases hf : l.find? (fun e => e.1 == k) with _ | e
  · rw [hf] at h
    cases h
  · rw [hf] at h
    have hm := List.mem_of_find?_eq_some hf
    have hp := List.find?_some hf
    rcases e with ⟨k0, v0⟩
    simp only [Option.map_some'] at h
    have hk : k0 = k := by simpa using hp
    have hv : v0 = v := by simpa using h
    rw [hk, hv] at hm
    exact hm

theorem mem_rvnCodesFor (rvn : List (String × Nat)) (i : Nat) (c : String) :
    c ∈ rvnCodesFor rvn i ↔ (c, i) ∈ rvn := by
  simp only [rvnCodesFor, List.mem_map, List.mem_filter]
  constructor
  · rintro ⟨e, ⟨he, hei⟩, hec⟩
    rcases e with ⟨a, b⟩
    have hb : b = i := by simpa using hei
    have ha : a = c := by simpa using hec
    rw [ha, hb] at he
    exact he
  · intro h
    exact ⟨(c, i), ⟨h, by simp⟩, rfl⟩

theorem rvnCodesFor_append (rvn : List (String × Nat)) (c : String) (r i : Nat) :
    rvnCodesFor (rvn ++ [(c, r)]) i =
      rvnCodesFor rvn i ++ (if r = i then [c] else []) := by
  by_cases h : r = i <;> simp [rvnCodesFor, List.filter_append, h]

theorem candidates_sub (store : List DWProgram)
    (pp : List (String × (Option DWProgram × Nat))) (c : String) :
    ∀ r ∈ specializationParentCandidates store pp c, ∃ e ∈ pp, r = e.2.2 := by
  intro r hr
  unfold specializationParentCandidates at hr
  by_cases h : (c == "OACSC") = true
  · rw [if_pos h] at hr
    rcases hchem : alGet pp "Major in Chemistry" with _ | inMap
    · rw [hchem] at hr
      cases hr
    · rw [hchem] at hr
      have hmem := alGet_mem pp _ _ hchem
      have : r = inMap.2 := by simpa using hr
      exact ⟨_, hmem, this⟩
  · rw [if_neg h] at hr
    rcases hs : stripTrailingUppercase c with _ | m
    · rw [hs] at hr
      cases hr
    · rw [hs] at hr
      simp only [List.mem_map, List.mem_filter] at hr
      obtain ⟨e, ⟨he, _⟩, hre⟩ := hr
      exact ⟨e, he, hre.symm⟩

theorem tryCandidates_found_mem (oracle : SpecQuery → Option Block)
    (store : List DWProgram) (specCode : String) :
    ∀ (cands : List Nat) (qs : List SpecQuery) (b : Block) (r : Nat),
      tryCandidates oracle store specCode cands = .ok (qs, some (b, r)) → r ∈ cands := by
  intro cands
  induction cands with
  | nil =>
    intro qs b r h
    rw [tryCandidates] at h
    have h2 := Except.ok.inj h
    have h3 : (none : Option (Block × Nat)) = some (b, r) := congrArg Prod.snd h2
    cases h3
  | cons c cs ih =>
    intro qs b r h
    rw [tryCandidates] at h
    rcases hdt : (progAt store c).degreeType.filter (fun s => !(s == "")) with _ | dt
    · rw [hdt] at h
      cases h
    · rw [hdt] at h
      dsimp only at h
      rcases ho : oracle (specQueryOf store c specCode dt) with _ | b0
      · rw [ho] at h
        rcases htc : tryCandidates oracle store specCode cs with e | ⟨qs2, found2⟩
        · rw [htc] at h
          cases h
        · rw [htc] at h
          have h2 := Except.ok.inj h
          have h3 : found2 = some (b, r) := congrArg Prod.snd h2
          rcases found2 with _ | ⟨b2, r2⟩
          · cases h3
          · have h4 := Option.some.inj h3
            have hr : r2 = r := congrArg Prod.snd h4
            exact List.mem_cons_of_mem c (hr ▸ ih qs2 b2 r2 htc)
      · rw [ho] at h
        have h2 := Except.ok.inj h
        have h3 : some (b0, c) = some (b, r) := congrArg Prod.snd h2
        have h4 := Option.some.inj h3
        have hr : c = r := congrArg Prod.snd h4
        exact hr ▸ List.mem_cons_self c cs

theorem allocPrograms_go_fst (programs : List (String × MajorProgram)) :
    ∀ (s : List DWProgram) (p : List (String × (Option DWProgram × Nat))),
    (programs.foldl
      (fun acc e => (acc.1 ++ [e.2.2], acc.2 ++ [(e.1, (e.2.1, acc.1.length))])) (s, p)).1 =
      s ++ programs.map (fun e => e.2.2) := by
  induction programs with
  | nil => intro s p; simp
  | cons e rest ih =>
    intro s p
    rw [List.foldl_cons, ih]
    simp

theorem allocPrograms_go_refs (programs : List (String × MajorProgram)) :
    ∀ (s : List DWProgram) (p : List (String × (Option DWProgram × Nat))),
    (∀ q ∈ p, q.2.2 < s.length + programs.length) →
    ∀ q ∈ (programs.foldl
      (fun acc e => (acc.1 ++ [e.2.2], acc.2 ++ [(e.1, (e.2.1, acc.1.length))])) (s, p)).2,
      q.2.2 < s.length + programs.length := by
  induction programs with
  | nil => intro s p hp q hq; simpa using hp q hq
  | cons e rest ih =>
    intro s p hp q hq
    rw [List.foldl_cons] at hq
    have hstep := ih (s ++ [e.2.2]) (p ++ [(e.1, (e.2.1, s.length))]) ?bound q hq
    · simp only [List.length_append, List.length_cons, List.length_nil] at hstep ⊢
      omega
    case bound =>
      intro q2 hq2
      rcases List.mem_append.mp hq2 with h2 | h2
      · have := hp q2 h2
        simp only [List.length_append, List.length_cons, List.length_nil] at this ⊢
        omega
      · have : q2 = (e.1, (e.2.1, s.length)) := by simpa using h2
        rw [this]
        simp only [List.length_append, List.length_cons, List.length_nil]
        omega

theorem initSpecState_refs (programs : List (String × MajorProgram))
    (file : List (String × Option (DWProgram × Block))) :
    ∀ q ∈ (initSpecState programs file).parsedPrograms, q.2.2 < programs.length := by
  intro q hq
  have : (initSpecState programs file).parsedPrograms = (allocPrograms programs).2 := rfl
  rw [this] at hq
  have := allocPrograms_go_refs programs [] [] (by simp) q hq
  simpa using this

theorem loadCache_go_fst (file : List (String × Option (DWProgram × Block))) :
    ∀ (acc : List DWProgram × List (String × Option CacheEntryRef)),
    ∃ ext, (file.foldl
      (fun acc e =>
        match e.2 with
        | none => (acc.1, acc.2 ++ [(e.1, none)])
        | some pv =>
          (acc.1 ++ [pv.1], acc.2 ++ [(e.1, some { parent := acc.1.length, block := pv.2 })]))
      acc).1 = acc.1 ++ ext := by
  induction file with
  | nil => exact fun acc => ⟨[], by simp⟩
  | cons e rest ih =>
    intro acc
    rw [List.foldl_cons]
    rcases he : e.2 with _ | pv
    · obtain ⟨ext, hext⟩ := ih (acc.1, acc.2 ++ [(e.1, none)])
      exact ⟨ext, hext⟩
    · obtain ⟨ext, hext⟩ := ih
        (acc.1 ++ [pv.1], acc.2 ++ [(e.1, some { parent := acc.1.length, block := pv.2 })])
      refine ⟨[pv.1] ++ ext, ?_⟩
      rw [← List.append_assoc, ← hext]

theorem loadCache_go_parents (file : List (String × Option (DWProgram × Block))) :
    ∀ (acc : List DWProgram × List (String × Option CacheEntryRef)) (n : Nat),
    n ≤ acc.1.length →
    (∀ c entry, alGet acc.2 c = some (some entry) → n ≤ entry.parent) →
    ∀ c entry, alGet ((file.foldl
      (fun acc e =>
        match e.2 with
        | none => (acc.1, acc.2 ++ [(e.1, none)])
        | some pv =>
          (acc.1 ++ [pv.1], acc.2 ++ [(e.1, some { parent := acc.1.length, block := pv.2 })]))
      acc)).2 c = some (some entry) → n ≤ entry.parent := by
  induction file with
  | nil => intro acc n _ hacc c entry h; exact hacc c entry h
  | cons e rest ih =>
    intro acc n hn hacc c entry h
    rw [List.foldl_cons] at h
    rcases he : e.2 with _ | pv
    · rw [he] at h
      refine ih (acc.1, acc.2 ++ [(e.1, none)]) n hn ?_ c entry h
      intro c2 entry2 h2
      rw [alGet_append] at h2
      rcases hold : alGet acc.2 c2 with _ | v2
      · rw [hold] at h2
        simp only [Option.none_or] at h2
        rw [alGet_cons] at h2
        by_cases hc2 : e.1 = c2
        · rw [if_pos hc2] at h2
          cases Option.some.inj h2
        · rw [if_neg hc2] at h2
          simp [alGet] at h2
      · rw [hold] at h2
        simp only [Option.or_some] at h2
        exact hacc c2 entry2 (hold.trans h2)
    · rw [he] at h
      refine ih (acc.1 ++ [pv.1],
          acc.2 ++ [(e.1, some { parent := acc.1.length, block := pv.2 })]) n
          (by simp only [List.length_append, List.length_cons, List.length_nil]; omega)
          ?_ c entry h
      intro c2 entry2 h2
      rw [alGet_append] at h2
      rcases hold : alGet acc.2 c2 with _ | v2
      · rw [hold] at h2
        simp only [Option.none_or] at h2
        rw [alGet_cons] at h2
        by_cases hc2 : e.1 = c2
        · rw [if_pos hc2] at h2
          have := Option.some.inj h2
          have h3 : entry2 = { parent := acc.1.length, block := pv.2 } :=
            (Option.some.inj this.symm)
          rw [h3]
          exact hn
        · rw [if_neg hc2] at h2
          simp [alGet] at h2
      · rw [hold] at h2
        simp only [Option.or_some] at h2
        exact hacc c2 entry2 (hold.trans h2)

theorem initSpecState_store_length (programs : List (String × MajorProgram))
    (file : List (String × Option (DWProgram × Block))) :
    programs.length ≤ (initSpecState programs file).store.length := by
  obtain ⟨ext, hext⟩ := loadCache_go_fst file ((allocPrograms programs).1, [])
  have hstore : (initSpecState programs file).store =
      (allocPrograms programs).1 ++ ext := hext
  have halloc : (allocPrograms programs).1 = programs.map (fun e => e.2.2) := by
    have := allocPrograms_go_fst programs [] []
    simpa [allocPrograms] using this
  rw [hstore, halloc]
  simp

theorem initSpecState_store_specs (programs : List (String × MajorProgram))
    (file : List (String × Option (DWProgram × Block)))
    (hempty : ∀ e ∈ programs, e.2.2.specs = []) :
    ∀ i, i < programs.length → (progAt (initSpecState programs file).store i).specs = [] := by
  intro i hi
  obtain ⟨ext, hext⟩ := loadCache_go_fst file ((allocPrograms programs).1, [])
  have hstore : (initSpecState programs file).store =
      (allocPrograms programs).1 ++ ext := hext
  have halloc : (allocPrograms programs).1 = programs.map (fun e => e.2.2) := by
    have := allocPrograms_go_fst programs [] []
    simpa [allocPrograms] using this
  have hlen : i < ((allocPrograms programs).1).length := by
    rw [halloc]
    simpa using hi
  rw [hstore]
  unfold progAt
  rw [List.getD_eq_getElem?_getD, List.getElem?_append_left hlen, halloc,
    List.getElem?_map]
  have hi2 : i < programs.length := hi
  rw [List.getElem?_eq_getElem hi2]
  simp only [Option.map_some', Option.getD_some]
  exact hempty (programs[i]) (List.getElem_mem hi2)

theorem initSpecState_cache_parents (programs : List (String × MajorProgram))
    (file : List (String × Option (DWProgram × Block))) :
    ∀ c entry, alGet (initSpecState programs file).cache c = some (some entry) →
      programs.length ≤ entry.parent := by
  have halloc : (allocPrograms programs).1 = programs.map (fun e => e.2.2) := by
    have := allocPrograms_go_fst programs [] []
    simpa [allocPrograms] using this
  refine loadCache_go_parents file ((allocPrograms programs).1, []) programs.length ?_ ?_
  · rw [halloc]
    simp
  · intro c2 entry2 h2
    exact Option.noConfusion h2

theorem initSpecState_inv (programs : List (String × MajorProgram))
    (file : List (String × Option (DWProgram × Block)))
    (hempty : ∀ e ∈ programs, e.2.2.specs = []) (codes : List String) :
    specInv programs.length (initSpecState programs file).parsedPrograms
      (initSpecState programs file).cache codes (initSpecState programs file) := by
  refine ⟨rfl, initSpecState_store_length _ _, ?_, fun c _ => rfl, ?_⟩
  · intro i hi
    rw [initSpecState_store_specs programs file hempty i hi]
    rfl
  · intro c v hv entry _
    exact Option.noConfusion hv

theorem processSpec_inv (oracle : SpecQuery → Option Block) (n0 : Nat)
    (pp0 : List (String × (Option DWProgram × Nat)))
    (cache0 : List (String × Option CacheEntryRef))
    (hpp : ∀ e ∈ pp0, e.2.2 < n0)
    (hc0 : ∀ c entry, alGet cache0 c = some (some entry) → n0 ≤ entry.parent)
    (st : SpecState) (c nm : String) (rest : List String)
    (hnotin : c ∉ rest)
    (hinv : specInv n0 pp0 cache0 (c :: rest) st) :
    ∀ st2, processSpec oracle st c nm = .ok st2 →
      specInv n0 pp0 cache0 rest st2 ∧
      (∀ entry, alGet cache0 c = some (some entry) →
        ∃ pr, alGet st2.parsedSpecializations c = some (entry.parent, nm, pr)) ∧
      (∀ cc, cc ≠ c → alGet st2.parsedSpecializations cc = alGet st.parsedSpecializations cc) := by
  obtain ⟨hpp0, hlen, hspecs, hcache, hps⟩ := hinv
  intro st2 hok
  have hcc : alGet st.cache c = alGet cache0 c := hcache c (by simp)
  have hne2 : ∀ cc, cc ∈ rest → cc ≠ c := by
    intro cc hccr hh
    subst hh
    exact hnotin hccr
  rcases h0 : alGet cache0 c with _ | entry0
  · rw [h0] at hcc
    rcases htc : tryCandidates oracle st.store c
        (specializationParentCandidates st.store st.parsedPrograms c) with e | ⟨qs, found⟩
    · simp [processSpec, hcc, htc] at hok
    · rcases found with _ | ⟨b, r⟩
      · simp [processSpec, hcc, htc] at hok
        obtain rfl := hok.symm
        refine ⟨⟨hpp0, hlen, ?_, ?_, hps⟩, ?_, fun cc _ => rfl⟩
        · intro i hi
          exact hspecs i hi
        · intro cc hccr
          dsimp only
          rw [alGet_alSet_ne _ _ _ _ (hne2 cc hccr)]
          exact hcache cc (List.mem_cons_of_mem c hccr)
        · intro entry hentry
          exact Option.noConfusion hentry
      · have hrmem := tryCandidates_found_mem oracle st.store c _ qs b r htc
        obtain ⟨e, hepp, hre⟩ := candidates_sub st.store st.parsedPrograms c r hrmem
        have hr : r < n0 := by
          rw [hre]
          exact hpp e (hpp0 ▸ hepp)
        simp [processSpec, hcc, htc] at hok
        obtain rfl := hok.symm
        refine ⟨⟨hpp0, ?_, ?_, ?_, ?_⟩, ?_, ?_⟩
        · dsimp only
          rw [List.length_set]
          exact hlen
        · intro i hi
          dsimp only
          by_cases hir : i = r
          · subst hir
            rw [progAt_set_self _ _ _ (lt_of_lt_of_le hr hlen), rvnCodesFor_append,
              if_pos rfl]
            simp only [pushSpec]
            rw [hspecs i hi]
          · rw [progAt_set_ne _ _ _ _ hir, rvnCodesFor_append,
              if_neg (fun hh => hir hh.symm), List.append_nil]
            exact hspecs i hi
        · intro cc hccr
          dsimp only
          rw [alGet_alSet_ne _ _ _ _ (hne2 cc hccr)]
          exact hcache cc (List.mem_cons_of_mem c hccr)
        · intro cc v hv entry hentry
          dsimp only at hv
          by_cases hcc2 : cc = c
          · subst hcc2
            rw [h0] at hentry
            exact Option.noConfusion hentry
          · rw [alGet_alSet_ne _ _ _ _ hcc2] at hv
            exact hps cc v hv entry hentry
        · intro entry hentry
          exact Option.noConfusion hentry
        · intro cc hcc2
          dsimp only
          exact alGet_alSet_ne _ _ _ _ hcc2
  · rw [h0] at hcc
    rcases entry0 with _ | e0
    · simp [processSpec, hcc] at hok
      obtain rfl := hok.symm
      refine ⟨⟨hpp0, hlen, ?_, ?_, hps⟩, ?_, fun cc _ => rfl⟩
      · intro i hi
        exact hspecs i hi
      · intro cc hccr
        dsimp only
        rw [alGet_alSet_ne _ _ _ _ (hne2 cc hccr)]
        exact hcache cc (List.mem_cons_of_mem c hccr)
      · intro entry hentry
        exact Option.noConfusion (Option.some.inj hentry)
    · have hpar : n0 ≤ e0.parent := hc0 c e0 h0
      simp [processSpec, hcc] at hok
      obtain rfl := hok.symm
      refine ⟨⟨hpp0, ?_, ?_, ?_, ?_⟩, ?_, ?_⟩
      · dsimp only
        rw [List.length_set]
        exact hlen
      · intro i hi
        dsimp only
        rw [progAt_set_ne _ _ _ _ (show i ≠ e0.parent from fun hh => by omega)]
        exact hspecs i hi
      · intro cc hccr
        dsimp only
        rw [alGet_alSet_ne _ _ _ _ (hne2 cc hccr)]
        exact hcache cc (List.mem_cons_of_mem c hccr)
      · intro cc v hv entry hentry
        dsimp only at hv
        by_cases hcc2 : cc = c
        · subst hcc2
          rw [alGet_alSet_self] at hv
          obtain rfl := Option.some.inj hv
          rw [h0] at hentry
          obtain rfl := Option.some.inj (Option.some.inj hentry)
          rfl
        · rw [alGet_alSet_ne _ _ _ _ hcc2] at hv
          exact hps cc v hv entry hentry
      · intro entry hentry
        obtain rfl := Option.some.inj (Option.some.inj hentry)
        dsimp only
        exact ⟨_, alGet_alSet_self _ _ _⟩
      · intro cc hcc2
        dsimp only
        exact alGet_alSet_ne _ _ _ _ hcc2

theorem specLoop_inv (oracle : SpecQuery → Option Block) (n0 : Nat)
    (pp0 : List (String × (Option DWProgram × Nat)))
    (cache0 : List (String × Option CacheEntryRef))
    (hpp : ∀ e ∈ pp0, e.2.2 < n0)
    (hc0 : ∀ c entry, alGet cache0 c = some (some entry) → n0 ≤ entry.parent) :
    ∀ (specs : List (String × String)) (st st2 : SpecState),
      (specs.map (fun e => e.1)).Nodup →
      specInv n0 pp0 cache0 (specs.map (fun e => e.1)) st →
      specLoop oracle st specs = .ok st2 →
      specInv n0 pp0 cache0 [] st2 ∧
      (∀ e ∈ specs, ∀ entry, alGet cache0 e.1 = some (some entry) →
        ∃ pr, alGet st2.parsedSpecializations e.1 = some (entry.parent, e.2, pr)) ∧
      (∀ cc, cc ∉ specs.map (fun e => e.1) →
        alGet st2.parsedSpecializations cc = alGet st.parsedSpecializations cc) := by
  intro specs
  induction specs with
  | nil =>
    intro st st2 _ hinv hok
    rw [specLoop] at hok
    obtain rfl := Except.ok.inj hok
    exact ⟨hinv, by simp, fun cc _ => rfl⟩
  | cons e rest ih =>
    intro st st2 hnodup hinv hok
    rw [specLoop] at hok
    rcases hp : processSpec oracle st e.1 e.2 with err | stm
    · rw [hp] at hok
      exact absurd hok (by simp [Except.bind])
    · rw [hp] at hok
      have hok2 : specLoop oracle stm rest = .ok st2 := hok
      have hnd := List.nodup_cons.mp
        (show (e.1 :: rest.map (fun e2 => e2.1)).Nodup from hnodup)
      have hstep := processSpec_inv oracle n0 pp0 cache0 hpp hc0 st e.1 e.2
        (rest.map (fun e2 => e2.1)) hnd.1
        (show specInv n0 pp0 cache0 (e.1 :: rest.map (fun e2 => e2.1)) st from hinv) stm hp
      obtain ⟨hinv2, hhit, hframe⟩ := hstep
      obtain ⟨hinv3, hhits, hframe2⟩ := ih stm st2 hnd.2 hinv2 hok2
      refine ⟨hinv3, ?_, ?_⟩
      · intro e2 he2 entry hentry
        rcases List.mem_cons.mp he2 with h2 | h2
        · subst h2
          obtain ⟨pr, hpr⟩ := hhit entry hentry
          rw [hframe2 e2.1 hnd.1]
          exact ⟨pr, hpr⟩
        · exact hhits e2 h2 entry hentry
      · intro cc hcc
        simp only [List.map_cons, List.mem_cons, not_or] at hcc
        rw [hframe2 cc hcc.2, hframe cc hcc.1]

/-- **C10** (amended): every specialization resolved from a non-null
cache hit records, as its parent, the program object deserialized from
the cache file — a reference distinct from every entry of
`parsedPrograms` — and at the end of the specialization stage (before
the Art History post-processing, which may clear that major's list) a
program in `parsedPrograms` has a specialization code in its `specs`
list exactly when that specialization was newly resolved to it via
network during this run. -/
theorem c10_cache_hit_aliasing (oracle : SpecQuery → Option Block)
    (programs : List (String × MajorProgram))
    (file : List (String × Option (DWProgram × Block)))
    (specs : List (String × String))
    (hempty : ∀ e ∈ programs, e.2.2.specs = [])
    (hnodup : (specs.map (fun e => e.1)).Nodup) :
    ∀ st2, runSpecStage oracle programs file specs = .ok st2 →
      (∀ e ∈ specs, ∀ entry,
        alGet (initSpecState programs file).cache e.1 = some (some entry) →
        ∃ pr, alGet st2.parsedSpecializations e.1 = some (entry.parent, e.2, pr) ∧
          ∀ title v, alGet st2.parsedPrograms title = some v → v.2 ≠ entry.parent) ∧
      (∀ title v cc, alGet st2.parsedPrograms title = some v →
        (cc ∈ (progAt st2.store v.2).specs ↔ (cc, v.2) ∈ st2.resolvedViaNetwork)) := by
  intro st2 hok
  have hpp := initSpecState_refs programs file
  have hc0 := initSpecState_cache_parents programs file
  have hinit := initSpecState_inv programs file hempty (specs.map (fun e => e.1))
  obtain ⟨hinv, hhits, _⟩ := specLoop_inv oracle programs.length
    (initSpecState programs file).parsedPrograms (initSpecState programs file).cache
    hpp hc0 specs (initSpecState programs file) st2 hnodup hinit hok
  obtain ⟨hpp0, hlen, hspecs, _, _⟩ := hinv
  constructor
  · intro e he entry hentry
    obtain ⟨pr, hpr⟩ := hhits e he entry hentry
    refine ⟨pr, hpr, ?_⟩
    intro title v hv heq
    have hmem := alGet_mem _ _ _ (hpp0 ▸ hv)
    have hv2 : v.2 < programs.length := hpp (title, v) hmem
    have hpar := hc0 e.1 entry hentry
    omega
  · intro title v cc hv
    have hmem := alGet_mem _ _ _ (hpp0 ▸ hv)
    have hv2 : v.2 < programs.length := hpp (title, v) hmem
    rw [hspecs v.2 hv2]
    exact mem_rvnCodesFor _ _ _

/-- Witness for **C10** (amended), at a concrete scenario with one
network resolution and one non-null cache hit. -/
theorem c10_witness :
    ∃ st2, runSpecStage (fun q => if q.specCode == "161A" then some { title := "B161A" }
        else none) c10wPrograms c10wFile c10wSpecs = .ok st2 ∧
      (∃ pr, alGet st2.parsedSpecializations "CCHIT" = some (1, "Cached spec", pr) ∧
        ∀ title v, alGet st2.parsedPrograms title = some v → v.2 ≠ 1) ∧
      (("161A" ∈ (progAt st2.store 0).specs) ↔ ("161A", 0) ∈ st2.resolvedViaNetwork) := by
  refine ⟨_, rfl, ?_, ?_⟩
  · have h := (c10_cache_hit_aliasing
      (fun q => if q.specCode == "161A" then some { title := "B161A" } else none)
      c10wPrograms c10wFile c10wSpecs ?hempty ?hnodup _ rfl).1
      ("CCHIT", "Cached spec") (by simp [c10wSpecs])
      { parent := 1, block := { title := "CCHIT block" } } rfl
    · obtain ⟨pr, hpr, hne⟩ := h
      exact ⟨pr, hpr, hne⟩
    case hempty =>
      intro e he
      rcases List.mem_singleton.mp he
      rfl
    case hnodup => decide
  · have h := (c10_cache_hit_aliasing
      (fun q => if q.specCode == "161A" then some { title := "B161A" } else none)
      c10wPrograms c10wFile c10wSpecs ?hempty2 ?hnodup2 _ rfl).2
      "Major X" (none, 0) "161A" rfl
    · exact h
    case hempty2 =>
      intro e he
      rcases List.mem_singleton.mp he
      rfl
    case hnodup2 => decide

/-! ### Orchestrator single use (C8) -/

/-- **C8** counterexample: a first `run()` that aborts early (the
undergraduate requirements fetch yields nothing) returns without
setting `done`, and a second `run()` on the same instance does not
throw — so "run() throws if called more than once" fails as stated. -/
theorem c8_counterexample :
    ∃ st1, runModel {} {} = .ok st1 ∧ ∀ e, runModel {} st1 ≠ .error e := by
  refine ⟨{}, rfl, ?_⟩
  intro e h
  rw [show runModel {} ({} : ScraperModel) = .ok {} from rfl] at h
  cases h

/-- **C8** (amended): `get()` throws before a run has reached `Done`,
and `run()`'s repeated-call guard throws exactly when `done` is set;
but no run can set `done`: a run whose undergraduate-requirements
fetch fails returns early leaving `done` unset, so a second `run()`
does not throw, and a run whose fetch succeeds throws a `TypeError` at
the array destructuring of the non-iterable `{ UC, GE, CHC4 }` object
before any later stage, so `done` is never assigned and a non-throwing
`run()` always returns the instance unchanged. -/
theorem c8_single_use_guards :
    (∀ st : ScraperModel, st.done = false →
      getModel st = .error "This scraper instance has not yet finished its run.") ∧
    (∀ (env : RunEnv) (st : ScraperModel), st.done = true →
      runModel env st = .error "This scraper instance has already finished its run.") ∧
    (∀ (env : RunEnv) (st : ScraperModel), st.done = false →
      getUgradRequirements env.ugradResponse = none → runModel env st = .ok st) ∧
    (∀ (env : RunEnv) (st : ScraperModel) (p : Block × Block), st.done = false →
      getUgradRequirements env.ugradResponse = some p →
      runModel env st = .error "TypeError: ugradReqs is not iterable") ∧
    (∀ (env : RunEnv) (st st2 : ScraperModel), runModel env st = .ok st2 → st2 = st) := by
  refine ⟨?_, ?_, ?_, ?_, ?_⟩
  · intro st h
    unfold getModel
    rw [h]
    rfl
  · intro env st h
    unfold runModel
    rw [h]
    rfl
  · intro env st h hu
    unfold runModel
    rw [h, hu]
    rfl
  · intro env st p h hu
    unfold runModel
    rw [h, hu]
    rfl
  · intro env st st2 hok
    unfold runModel at hok
    by_cases h : st.done = true
    · rw [if_pos h] at hok
      exact Except.noConfusion hok
    · rw [if_neg h] at hok
      cases hu : getUgradRequirements env.ugradResponse with
      | none =>
        rw [hu] at hok
        exact (Except.ok.inj hok).symm
      | some p =>
        rw [hu] at hok
        exact Except.noConfusion hok

/-- Witness for **C8** (amended): the `get()` guard, the `done` guard,
the early return, the `TypeError` on a successful fetch, and the
unchanged state of a non-throwing run, at concrete inputs. -/
theorem c8_witness :
    getModel {} = .error "This scraper instance has not yet finished its run." ∧
    runModel {} { done := true } =
      .error "This scraper instance has already finished its run." ∧
    runModel {} {} = .ok {} ∧
    runModel c8Env {} = .error "TypeError: ugradReqs is not iterable" ∧
    (∀ st2, runModel {} {} = .ok st2 → st2 = ({} : ScraperModel)) :=
  ⟨c8_single_use_guards.1 {} rfl,
    c8_single_use_guards.2.1 {} { done := true } rfl,
    c8_single_use_guards.2.2.1 {} {} rfl rfl,
    c8_single_use_guards.2.2.2.1 c8Env {}
      ({ requirementType := "SCHOOL" }, { requirementType := "PROGRAM" }) rfl rfl,
    fun st2 hok => c8_single_use_guards.2.2.2.2 {} {} st2 hok⟩

/-- Witness for **C6**, at a concrete post-resolution state. -/
theorem c6_witness :
    alGet (postProcess c6State).parsedSpecializations "AHGEO" = none ∧
    alGet (postProcess c6State).parsedSpecializations "AHPER" = none ∧
    (progAt (postProcess c6State).store 0).requirements =
      (progAt c6State.store 0).requirements ++
        [RequirementNode.course "AH110" none false] ++
        [RequirementNode.course "AH120" none false] :=
  c6_art_history_merge c6State (none, 0)
    (0, "Geography", { requirements := [.course "AH110" none false] })
    (0, "Performance", { requirements := [.course "AH120" none false] })
    rfl rfl rfl (by decide)

end DW
